import Mathlib

/-!
Verification of the HOPPER system-executor module
(`src/system_executor/src/main.c`): a shallow embedding of its request
assembler, JSON command dispatcher, action handlers and result encoder,
together with proofs about the embedding.

Conventions of the embedding:

* C strings are modelled as Lean `String`s (lists of characters); one
  character stands for one byte (every concrete input considered is ASCII).
  C strings never contain the NUL character.  The sized byte buffers handed
  to the request assembler by the HTTP layer are not C strings and may
  contain NUL; NUL is treated explicitly there.
* `snprintf(buf, n, fmt, ...)` keeps the first `n - 1` formatted characters.
  The only conversion the module uses is `%s`.
* The cJSON library calls used by the module (`cJSON_Parse`, `cJSON_Print`,
  `cJSON_GetObjectItem`, `cJSON_AddBoolToObject`, `cJSON_AddStringToObject`)
  are modelled after the library: parsing skips bytes of value at most 32 as
  whitespace, tolerates trailing input after the first value, accepts raw
  control characters inside string literals; object lookup is
  case-insensitive; `cJSON_Print` produces *formatted* output (the object
  form is brace, newline, then one tab-indented `"key":<tab>value` line per
  member, comma separated, then a closing brace; arrays separate elements
  with a comma and a space); insertion order of members is preserved.
  Number values keep their source lexeme; no claim involves numbers.
-/

namespace Hopper

set_option maxRecDepth 2000

/-- A character that may be interpolated into the module's hand-built JSON
output without breaking it: at least 32 and neither a double quote nor a
backslash. -/
def goodChar (c : Char) : Bool :=
  decide (32 ≤ c.toNat) && c != '"' && c != '\\'

/-- A character cJSON serializes into a string literal without escaping it:
anything from 32 up except the double quote and the backslash are escaped
to two-character sequences, so only code points below 32 need `\u` forms. -/
def printableChar (c : Char) : Bool :=
  decide (32 ≤ c.toNat)

/-- Core of the `sprintf` model: walk the format string, substituting each
`%s` with the next argument.  The module only ever uses `%s` conversions. -/
def sprintfAux : List Char → List String → List Char
  | [], _ => []
  | c :: rest, args =>
    if c = '%' then
      match rest with
      | [] => [c]
      | c2 :: rest2 =>
        if c2 = 's' then
          match args with
          | a :: args2 => a.data ++ sprintfAux rest2 args2
          | [] => sprintfAux rest2 []
        else c :: c2 :: sprintfAux rest2 args
    else c :: sprintfAux rest args

/-- Model of `snprintf(buf, size, fmt, args...)` restricted to `%s`
conversions: the formatted text truncated to `size - 1` characters. -/
def snprintfModel (size : Nat) (fmt : String) (args : List String) : String :=
  String.mk ((sprintfAux fmt.data args).take (size - 1))

/-- The `ExecutionResult` struct of main.c: an `int` used as a success flag,
`char message[1024]` and `char data[2048]`. -/
structure ExecutionResult where
  success : Bool
  message : String
  data : String
deriving DecidableEq

/-- The bytes `fprintf(file, "%s", content)` writes into the created file
(main.c line 216). -/
def create_file_written (content : String) : String :=
  String.mk (sprintfAux "%s".data [content])

/-- `create_file_with_content` from main.c (lines 200-227).  `fopen_ok`
abstracts whether `fopen(path, "w")` returned a stream. -/
def create_file_with_content (path content : String) (fopen_ok : Bool) :
    ExecutionResult :=
  if fopen_ok then
    { success := true,
      message := snprintfModel 1024 "Fichier créé avec succès: %s" [path],
      data := snprintfModel 2048 "\x7b\"path\": \"%s\"\x7d" [path] }
  else
    { success := false,
      message := snprintfModel 1024 "Erreur: impossible de créer le fichier %s" [path],
      data := "" }

/-- `delete_file` from main.c (lines 242-264).  `remove_ok` abstracts
whether `remove(path)` returned 0. -/
def delete_file (path : String) (remove_ok : Bool) : ExecutionResult :=
  if remove_ok then
    { success := true,
      message := snprintfModel 1024 "Fichier supprimé: %s" [path],
      data := snprintfModel 2048 "\x7b\"path\": \"%s\"\x7d" [path] }
  else
    { success := false,
      message := snprintfModel 1024 "Erreur: impossible de supprimer %s" [path],
      data := "" }

/-- The loop in `list_directory` skips the `.` and `..` pseudo-entries
(main.c line 289). -/
def notDotEntry (n : String) : Bool :=
  n != "." && n != ".."

/-- One directory entry as formatted into `char item[256]` by
`snprintf(item, sizeof(item), "\"%s\"", entry->d_name)` (main.c line 294). -/
def listItem (n : String) : List Char :=
  (sprintfAux "\"%s\"".data [n]).take 255

/-- The comma-space separated concatenation of items the `readdir` loop
builds with `strcat` and its `first` flag (main.c lines 288-297). -/
def filesJsonItems : List String → List Char
  | [] => []
  | [n] => listItem n
  | n :: ns => listItem n ++ ',' :: ' ' :: filesJsonItems ns

/-- The `files_json` buffer after the loop: `[` then the items then `]`
(main.c lines 273, 288-298).  The C buffer holds 3072 bytes and `strcat`
past its end is undefined behaviour; theorems about this definition carry a
hypothesis keeping the text within that bound. -/
def list_directory_files_json (entries : List String) : String :=
  String.mk ('[' :: filesJsonItems (entries.filter notDotEntry) ++ [']'])

/-- `list_directory` from main.c (lines 269-309).  `entries` is the sequence
of names `readdir` yields (each real directory entry once); `opendir_ok`
abstracts whether `opendir(path)` succeeded. -/
def list_directory (path : String) (entries : List String) (opendir_ok : Bool) :
    ExecutionResult :=
  if opendir_ok then
    { success := true,
      message := snprintfModel 1024 "Contenu de %s listé" [path],
      data := snprintfModel 2048 "\x7b\"path\": \"%s\", \"files\": %s\x7d"
        [path, list_directory_files_json entries] }
  else
    { success := false,
      message := snprintfModel 1024 "Erreur: impossible d\x27ouvrir %s" [path],
      data := "" }

/-- The command string `open_application` hands to `system()`:
`snprintf(command, sizeof(command), "open -a \"%s\" 2>&1", app_name)`
(main.c line 321). -/
def open_application_command (app_name : String) : String :=
  snprintfModel 1024 "open -a \"%s\" 2>&1" [app_name]

/-- `open_application` from main.c (lines 314-341).  `system_ret_zero`
abstracts whether `system(command)` returned 0. -/
def open_application (app_name : String) (system_ret_zero : Bool) :
    ExecutionResult :=
  if system_ret_zero then
    { success := true,
      message := snprintfModel 1024 "Application lancée: %s" [app_name],
      data := snprintfModel 2048 "\x7b\"app\": \"%s\"\x7d" [app_name] }
  else
    { success := false,
      message := snprintfModel 1024 "Erreur: impossible de lancer %s" [app_name],
      data := "" }

/-- The result built for an unrecognized action (main.c lines 162-166). -/
def unknown_action_result (action : String) : ExecutionResult :=
  { success := false,
    message := snprintfModel 1024 "Unknown action: %s" [action],
    data := "" }

/-- The result built when `cJSON_Parse` fails on the body (main.c 131-136). -/
def invalid_json_result : ExecutionResult :=
  { success := false, message := "Invalid JSON", data := "" }

/-- The result built when the `action` member is missing or not a string
(main.c lines 143-147). -/
def missing_action_result : ExecutionResult :=
  { success := false, message := "Missing action", data := "" }

/-- cJSON value trees.  Numbers keep their source lexeme (the module never
produces or consumes JSON numbers). -/
inductive Json where
  | null : Json
  | bool : Bool → Json
  | num : String → Json
  | str : String → Json
  | arr : List Json → Json
  | obj : List (String × Json) → Json

/-- cJSON's whitespace skipping: every byte of value 32 or less. -/
def skipWs (cs : List Char) : List Char :=
  cs.dropWhile (fun c => decide (c.toNat ≤ 32))

/-- Consume an expected literal character sequence. -/
def dropLit : List Char → List Char → Option (List Char)
  | [], cs => some cs
  | _ :: _, [] => none
  | p :: ps, c :: cs => if c = p then dropLit ps cs else none

/-- The value of one hexadecimal digit, as in cJSON's `parse_hex4`. -/
def hexVal (c : Char) : Option Nat :=
  if '0' ≤ c ∧ c ≤ '9' then some (c.toNat - 48)
  else if 'a' ≤ c ∧ c ≤ 'f' then some (c.toNat - 87)
  else if 'A' ≤ c ∧ c ≤ 'F' then some (c.toNat - 55)
  else none

/-- The character named by a single-letter JSON escape. -/
def escCharOf (e : Char) : Option Char :=
  if e = '"' then some '"'
  else if e = '\\' then some '\\'
  else if e = '/' then some '/'
  else if e = 'b' then some '\x08'
  else if e = 'f' then some '\x0c'
  else if e = 'n' then some '\n'
  else if e = 'r' then some '\r'
  else if e = 't' then some '\t'
  else none

/-- Body of a JSON string literal after its opening quote, as in cJSON's
`parse_string`: any character other than quote and backslash is taken
verbatim (including raw control characters, which cJSON accepts), escapes
are decoded, and a `\u` escape yields the code point of its four hex digits
(cJSON additionally combines UTF-16 surrogate pairs; no input in this
development uses `\u` at all). -/
def parseStringBody : List Char → Option (List Char × List Char)
  | [] => none
  | c :: rest =>
    if c = '"' then some ([], rest)
    else if c = '\\' then
      match rest with
      | [] => none
      | e :: rest2 =>
        if e = 'u' then
          match rest2 with
          | a :: b :: c3 :: d :: rest3 =>
            match hexVal a, hexVal b, hexVal c3, hexVal d with
            | some ha, some hb, some hc, some hd =>
              match parseStringBody rest3 with
              | some (s, r) =>
                some (Char.ofNat (((ha * 16 + hb) * 16 + hc) * 16 + hd) :: s, r)
              | none => none
            | _, _, _, _ => none
          | _ => none
        else
          match escCharOf e with
          | some ec =>
            match parseStringBody rest2 with
            | some (s, r) => some (ec :: s, r)
            | none => none
          | none => none
    else
      match parseStringBody rest with
      | some (s, r) => some (c :: s, r)
      | none => none

/-- The character set cJSON's `parse_number` scans. -/
def numChar (c : Char) : Bool :=
  c.isDigit || c = '+' || c = '-' || c = 'e' || c = 'E' || c = '.'

/-- Number lexeme at the head of the input (cJSON scans this set and runs
`strtod`; the module never handles numbers, so the lexeme is kept as is). -/
def parseNumberLex (cs : List Char) : Option (List Char × List Char) :=
  let lex := cs.takeWhile numChar
  if lex.isEmpty then none else some (lex, cs.dropWhile numChar)

mutual

/-- cJSON's `parse_value`: dispatch on the first non-whitespace character.
The fuel argument only bounds nesting of the mutual recursion; every entry
point supplies more fuel than any input could consume. -/
def parseValue : Nat → List Char → Option (Json × List Char)
  | 0, _ => none
  | fuel + 1, cs =>
    match skipWs cs with
    | [] => none
    | c :: rest =>
      if c = 'n' then (dropLit ['u', 'l', 'l'] rest).map (fun r => (Json.null, r))
      else if c = 't' then (dropLit ['r', 'u', 'e'] rest).map (fun r => (Json.bool true, r))
      else if c = 'f' then (dropLit ['a', 'l', 's', 'e'] rest).map (fun r => (Json.bool false, r))
      else if c = '"' then
        match parseStringBody rest with
        | some (s, r) => some (Json.str (String.mk s), r)
        | none => none
      else if c = '\x7b' then
        match skipWs rest with
        | [] => none
        | c2 :: r2 =>
          if c2 = '\x7d' then some (Json.obj [], r2)
          else
            match parseMembers fuel (c2 :: r2) with
            | some (ms, r) => some (Json.obj ms, r)
            | none => none
      else if c = '[' then
        match skipWs rest with
        | [] => none
        | c2 :: r2 =>
          if c2 = ']' then some (Json.arr [], r2)
          else
            match parseElements fuel (c2 :: r2) with
            | some (vs, r) => some (Json.arr vs, r)
            | none => none
      else if c = '-' || c.isDigit then
        match parseNumberLex (c :: rest) with
        | some (lex, r) => some (Json.num (String.mk lex), r)
        | none => none
      else none

/-- cJSON's `parse_object` loop: `"key" : value` pairs separated by commas,
closed by a brace. -/
def parseMembers : Nat → List Char → Option (List (String × Json) × List Char)
  | 0, _ => none
  | fuel + 1, cs =>
    match skipWs cs with
    | [] => none
    | c :: rest =>
      if c = '"' then
        match parseStringBody rest with
        | none => none
        | some (key, r1) =>
          match skipWs r1 with
          | [] => none
          | c2 :: r2 =>
            if c2 = ':' then
              match parseValue fuel r2 with
              | none => none
              | some (v, r3) =>
                match skipWs r3 with
                | [] => none
                | c3 :: r4 =>
                  if c3 = ',' then
                    match parseMembers fuel r4 with
                    | some (ms, r) => some ((String.mk key, v) :: ms, r)
                    | none => none
                  else if c3 = '\x7d' then some ([(String.mk key, v)], r4)
                  else none
            else none
      else none

/-- cJSON's `parse_array` loop: values separated by commas, closed by a
bracket. -/
def parseElements : Nat → List Char → Option (List Json × List Char)
  | 0, _ => none
  | fuel + 1, cs =>
    match parseValue fuel cs with
    | none => none
    | some (v, r1) =>
      match skipWs r1 with
      | [] => none
      | c :: r2 =>
        if c = ',' then
          match parseElements fuel r2 with
          | some (vs, r) => some (v :: vs, r)
          | none => none
        else if c = ']' then some ([v], r2)
        else none

end

/-- `cJSON_Parse`: parse the first value, ignoring whatever follows it (the
library is called without `require_null_terminated`).  The fuel `2·n + 2`
exceeds what parsing an `n`-character input can consume, since every fuel
step beyond the first consumes input. -/
def cJSON_ParseModel (s : String) : Option Json :=
  match parseValue (2 * s.data.length + 2) s.data with
  | some (j, _) => some j
  | none => none

/-- Validity of a standalone JSON text: one value covering the whole input
up to trailing whitespace.  This is the specification's notion of `data`
being a well-formed JSON fragment. -/
def isValidJson (s : String) : Bool :=
  match parseValue (2 * s.data.length + 2) s.data with
  | some (_, rest) => (skipWs rest).isEmpty
  | none => false

/-- Lower-case hex digit, as cJSON's `sprintf(..., "u%04x", ...)` emits. -/
def hexDig (n : Nat) : Char :=
  if n < 10 then Char.ofNat (48 + n) else Char.ofNat (87 + n)

/-- cJSON's `print_string_ptr` escaping for one character. -/
def escapeChar (c : Char) : List Char :=
  if c = '"' then ['\\', '"']
  else if c = '\\' then ['\\', '\\']
  else if c = '\x08' then ['\\', 'b']
  else if c = '\x0c' then ['\\', 'f']
  else if c = '\n' then ['\\', 'n']
  else if c = '\r' then ['\\', 'r']
  else if c = '\t' then ['\\', 't']
  else if c.toNat < 32 then ['\\', 'u', '0', '0', hexDig (c.toNat / 16), hexDig (c.toNat % 16)]
  else [c]

/-- A whole string body escaped. -/
def escapeList (l : List Char) : List Char :=
  (l.map escapeChar).flatten

/-- A printed JSON string literal. -/
def printStringChars (l : List Char) : List Char :=
  '"' :: escapeList l ++ ['"']

/-- Indentation of cJSON's formatted printing. -/
def tabsChars (d : Nat) : List Char :=
  List.replicate d '\t'

mutual

/-- cJSON's `print_value` with `format = true`, at nesting depth `d`, as
`cJSON_Print` uses it. -/
def printValue (d : Nat) : Json → List Char
  | Json.null => ['n', 'u', 'l', 'l']
  | Json.bool true => ['t', 'r', 'u', 'e']
  | Json.bool false => ['f', 'a', 'l', 's', 'e']
  | Json.num lex => lex.data
  | Json.str s => printStringChars s.data
  | Json.arr vs => '[' :: printArrItems d vs ++ [']']
  | Json.obj ms => '\x7b' :: '\n' :: printMembers (d + 1) ms ++ tabsChars d ++ ['\x7d']

/-- Formatted array elements: comma-space separated. -/
def printArrItems (d : Nat) : List Json → List Char
  | [] => []
  | [v] => printValue d v
  | v :: vs => printValue d v ++ ',' :: ' ' :: printArrItems d vs

/-- Formatted object members: each on its own tab-indented line, the value
preceded by a tab, a comma after every member but the last. -/
def printMembers (d : Nat) : List (String × Json) → List Char
  | [] => []
  | (k, v) :: ms =>
    tabsChars d ++ printStringChars k.data ++ ':' :: '\t' :: printValue d v ++
      (if ms.isEmpty then ['\n'] else [',', '\n']) ++ printMembers d ms

end

mutual

/-- Compact (whitespace-free) JSON rendering — what `cJSON_PrintUnformatted`
produces and what the specification's word "compact" denotes.  Modelled
from the spec for comparison with the module's actual encoder output. -/
def printCompact : Json → List Char
  | Json.null => ['n', 'u', 'l', 'l']
  | Json.bool true => ['t', 'r', 'u', 'e']
  | Json.bool false => ['f', 'a', 'l', 's', 'e']
  | Json.num lex => lex.data
  | Json.str s => printStringChars s.data
  | Json.arr vs => '[' :: printCompactItems vs ++ [']']
  | Json.obj ms => '\x7b' :: printCompactMembers ms ++ ['\x7d']

/-- Compact array elements. -/
def printCompactItems : List Json → List Char
  | [] => []
  | [v] => printCompact v
  | v :: vs => printCompact v ++ ',' :: printCompactItems vs

/-- Compact object members. -/
def printCompactMembers : List (String × Json) → List Char
  | [] => []
  | [(k, v)] => printStringChars k.data ++ ':' :: printCompact v
  | (k, v) :: ms => printStringChars k.data ++ ':' :: printCompact v ++ ',' :: printCompactMembers ms

end

/-- `create_json_response` from main.c (lines 346-363): a fresh object,
`success` added as a boolean, `message` as a string, and — only when the
`data` buffer is non-empty and reparses — the parsed fragment added as
`data`; the tree is rendered by `cJSON_Print` (formatted). -/
def create_json_response (r : ExecutionResult) : String :=
  let base := [("success", Json.bool r.success), ("message", Json.str r.message)]
  let fields :=
    if 0 < r.data.length then
      match cJSON_ParseModel r.data with
      | some d => base ++ [("data", d)]
      | none => base
    else base
  String.mk (printValue 0 (Json.obj fields))

/-- ASCII `tolower`, as C's `tolower` behaves in the default locale. -/
def toLowerAscii (c : Char) : Char :=
  if 'A' ≤ c ∧ c ≤ 'Z' then Char.ofNat (c.toNat + 32) else c

/-- cJSON's case-insensitive member-name comparison (ASCII `tolower`). -/
def ciStrEq (a b : String) : Bool :=
  a.data.map toLowerAscii == b.data.map toLowerAscii

/-- `cJSON_GetObjectItem`: first member whose name matches
case-insensitively; `none` on non-objects. -/
def getObjectItem : Json → String → Option Json
  | Json.obj ms, name =>
    match ms.find? (fun kv => ciStrEq kv.1 name) with
    | some kv => some kv.2
    | none => none
  | _, _ => none

/-- An item's `valuestring`: non-NULL exactly for string values. -/
def valuestringOf : Option Json → Option String
  | some (Json.str s) => some s
  | _ => none

/-- Where the `/execute` dispatcher sends a parsed body (main.c 139-166):
which handler runs with which resolved arguments, or which terminal input
error is reported. -/
inductive Dispatched where
  | invalidJson : Dispatched
  | missingAction : Dispatched
  | createFileCall (path content : String) : Dispatched
  | deleteFileCall (path : String) : Dispatched
  | listDirectoryCall (path : String) : Dispatched
  | unknownAction (action : String) : Dispatched
deriving DecidableEq

/-- Dispatch on an already-parsed body (main.c lines 139-166), including the
per-action default arguments. -/
def dispatchJson (j : Json) : Dispatched :=
  match valuestringOf (getObjectItem j "action") with
  | none => Dispatched.missingAction
  | some action =>
    let path := valuestringOf (getObjectItem j "path")
    let content := valuestringOf (getObjectItem j "content")
    if action = "create_file" then
      Dispatched.createFileCall (path.getD "/tmp/hopper_default.txt")
        (content.getD "Default content")
    else if action = "delete_file" then
      Dispatched.deleteFileCall (path.getD "/tmp/hopper_default.txt")
    else if action = "list_directory" then
      Dispatched.listDirectoryCall (path.getD "/tmp")
    else Dispatched.unknownAction action

/-- The full body-to-dispatch pipeline of the `/execute` POST route: parse
with cJSON, then dispatch (main.c lines 130-166). -/
def dispatchBody (body : String) : Dispatched :=
  match cJSON_ParseModel body with
  | none => Dispatched.invalidJson
  | some j => dispatchJson j

/-- The NUL byte, as a character of the assembler's chunk buffers. -/
def nulChar : Char := Char.ofNat 0

/-- One accumulation step of the request assembler (main.c lines 114-124):
`current_len = strlen(buffer)`, `available = 8192 - current_len - 1`,
`to_copy = min(*upload_data_size, available)`, then
`strncat(buffer, upload_data, to_copy)` — which also stops at the first NUL
byte of the chunk. -/
def accumulateChunk (buf chunk : String) : String :=
  let current_len := buf.length
  let available := 8192 - current_len - 1
  let to_copy := min chunk.length available
  buf ++ String.mk ((chunk.data.takeWhile (fun c => c != nulChar)).take to_copy)

/-- The body the assembler hands to the parser after all chunks arrived,
starting from the freshly allocated empty buffer (main.c lines 105-127). -/
def assembleBody (chunks : List String) : String :=
  chunks.foldl accumulateChunk ""

/-- POSIX shell field splitting restricted to the constructs that can occur
in the module's `open -a "..." 2>&1` command line: double quotes group,
unquoted spaces separate fields.  Modelled from the spec's security
requirement to state what `system()`'s shell makes of the command string.
State: remaining input, inside-quotes flag, current field, whether a
current field exists (so `""` yields an empty field). -/
def shellSplit : List Char → Bool → List Char → Bool → List (List Char)
  | [], _, cur, has => if has then [cur] else []
  | c :: rest, inQ, cur, has =>
    if c = '"' then shellSplit rest (!inQ) cur true
    else if c = ' ' then
      if inQ then shellSplit rest inQ (cur ++ [c]) true
      else if has then cur :: shellSplit rest false [] false
      else shellSplit rest false [] false
    else shellSplit rest inQ (cur ++ [c]) true

/-- The argument fields the shell derives from a command string. -/
def shellFields (s : String) : List String :=
  (shellSplit s.data false [] false).map String.mk

/-- Every character of a string is `goodChar`. -/
def goodString (s : String) : Bool :=
  s.data.all goodChar

/-- Every character of a string is `printableChar`. -/
def printableString (s : String) : Bool :=
  s.data.all printableChar

/-- A byte buffer without NUL bytes. -/
def nulFree (s : String) : Bool :=
  s.data.all (fun c => c != nulChar)

mutual

/-- Fuel sufficient for `parseValue` to parse this value back. -/
def jsonFuel : Json → Nat
  | Json.arr vs => 1 + fuelElems vs
  | Json.obj ms => 1 + fuelMems ms
  | _ => 1

/-- Fuel sufficient for `parseElements` on these elements. -/
def fuelElems : List Json → Nat
  | [] => 0
  | v :: vs => 1 + jsonFuel v + fuelElems vs

/-- Fuel sufficient for `parseMembers` on these members. -/
def fuelMems : List (String × Json) → Nat
  | [] => 0
  | (_, v) :: ms => 1 + jsonFuel v + fuelMems ms

end

mutual

/-- A value whose printed form parses back to it exactly: every string in it
is free of characters below 32 (so no `\u` escapes arise) and no numbers
occur (the module never produces JSON numbers). -/
def JsonClean : Json → Bool
  | Json.null => true
  | Json.bool _ => true
  | Json.num _ => false
  | Json.str s => printableString s
  | Json.arr vs => cleanElems vs
  | Json.obj ms => cleanMems ms

/-- `JsonClean` on every element. -/
def cleanElems : List Json → Bool
  | [] => true
  | v :: vs => JsonClean v && cleanElems vs

/-- Member names printable, member values `JsonClean`. -/
def cleanMems : List (String × Json) → Bool
  | [] => true
  | (k, v) :: ms => printableString k && JsonClean v && cleanMems ms

end

/-! Helper lemmas about whitespace skipping. -/

theorem skipWs_cons_low {c : Char} (h : c.toNat ≤ 32) (l : List Char) :
    skipWs (c :: l) = skipWs l := by
  simp [skipWs, List.dropWhile_cons, h]

theorem skipWs_cons_high {c : Char} (h : ¬ c.toNat ≤ 32) (l : List Char) :
    skipWs (c :: l) = c :: l := by
  simp [skipWs, List.dropWhile_cons, h]

theorem skipWs_append_low {ws : List Char} (h : ∀ c ∈ ws, c.toNat ≤ 32)
    (l : List Char) : skipWs (ws ++ l) = skipWs l := by
  induction ws with
  | nil => rfl
  | cons c cs ih =>
    rw [List.cons_append, skipWs_cons_low (h c (by simp)) (cs ++ l)]
    exact ih (fun x hx => h x (by simp [hx]))

theorem tabsChars_low (d : Nat) : ∀ c ∈ tabsChars d, c.toNat ≤ 32 := by
  intro c hc
  have hc2 : c = '\t' := List.eq_of_mem_replicate (by simpa [tabsChars] using hc)
  subst hc2
  decide

/-! Helper lemmas about the sprintf model. -/

theorem sprintfAux_cons_ne {c : Char} (h : c ≠ '%') (rest : List Char)
    (args : List String) : sprintfAux (c :: rest) args = c :: sprintfAux rest args := by
  rw [sprintfAux.eq_def]
  simp [h]

theorem sprintfAux_pct_s (rest : List Char) (a : String) (args : List String) :
    sprintfAux ('%' :: 's' :: rest) (a :: args) = a.data ++ sprintfAux rest args := by
  rw [sprintfAux.eq_def]
  simp

theorem sprintfAux_lit {pre : List Char} (h : '%' ∉ pre) (post : List Char)
    (args : List String) :
    sprintfAux (pre ++ post) args = pre ++ sprintfAux post args := by
  induction pre with
  | nil => rfl
  | cons c cs ih =>
    rw [List.cons_append, sprintfAux_cons_ne (by rintro rfl; exact h (by simp)) _ _,
      ih (fun hc => h (by simp [hc]))]
    rfl

theorem sprintfAux_no_pct {l : List Char} (h : '%' ∉ l) (args : List String) :
    sprintfAux l args = l := by
  have h2 := sprintfAux_lit h [] args
  rw [List.append_nil] at h2
  rw [h2]
  simp [sprintfAux]

/-! Helper lemmas about string-literal parsing. -/

theorem parseStringBody_clean {l : List Char}
    (h : ∀ c ∈ l, c ≠ '"' ∧ c ≠ '\\') (rest : List Char) :
    parseStringBody (l ++ '"' :: rest) = some (l, rest) := by
  induction l with
  | nil =>
    rw [List.nil_append, parseStringBody.eq_def]
    simp
  | cons c cs ih =>
    have hc := h c (by simp)
    rw [List.cons_append, parseStringBody.eq_def]
    simp [hc.1, hc.2, ih (fun x hx => h x (by simp [hx]))]

theorem skipWs_idem (cs : List Char) : skipWs (skipWs cs) = skipWs cs := by
  induction cs with
  | nil => rfl
  | cons c l ih =>
    by_cases h : c.toNat ≤ 32
    · rw [skipWs_cons_low h, ih]
    · rw [skipWs_cons_high h, skipWs_cons_high h]

theorem parseValue_wsInv (fuel : Nat) {ws : List Char}
    (h : ∀ c ∈ ws, c.toNat ≤ 32) (cs : List Char) :
    parseValue fuel (ws ++ cs) = parseValue fuel cs := by
  cases fuel with
  | zero => rfl
  | succ f =>
    simp only [parseValue.eq_def]
    rw [skipWs_append_low h]

theorem parseMembers_wsInv (fuel : Nat) {ws : List Char}
    (h : ∀ c ∈ ws, c.toNat ≤ 32) (cs : List Char) :
    parseMembers fuel (ws ++ cs) = parseMembers fuel cs := by
  cases fuel with
  | zero => rfl
  | succ f =>
    rw [parseMembers.eq_def]
    dsimp only []
    rw [skipWs_append_low h]
    conv_rhs => rw [parseMembers.eq_def]

theorem parseElements_wsInv (fuel : Nat) {ws : List Char}
    (h : ∀ c ∈ ws, c.toNat ≤ 32) (cs : List Char) :
    parseElements fuel (ws ++ cs) = parseElements fuel cs := by
  cases fuel with
  | zero => rfl
  | succ f =>
    rw [parseElements.eq_def]
    dsimp only []
    rw [parseValue_wsInv f h]
    conv_rhs => rw [parseElements.eq_def]

theorem takeWhileLow_low (cs : List Char) :
    ∀ c ∈ cs.takeWhile (fun c => decide (c.toNat ≤ 32)), c.toNat ≤ 32 := by
  intro c hc
  have := List.mem_takeWhile_imp hc
  exact of_decide_eq_true this

theorem parseValue_skipWs_eq (fuel : Nat) (cs : List Char) :
    parseValue fuel (skipWs cs) = parseValue fuel cs := by
  conv_rhs =>
    rw [← List.takeWhile_append_dropWhile (fun c => decide (c.toNat ≤ 32)) cs]
  rw [parseValue_wsInv fuel (takeWhileLow_low cs)]
  rfl

theorem parseMembers_skipWs_eq (fuel : Nat) (cs : List Char) :
    parseMembers fuel (skipWs cs) = parseMembers fuel cs := by
  conv_rhs =>
    rw [← List.takeWhile_append_dropWhile (fun c => decide (c.toNat ≤ 32)) cs]
  rw [parseMembers_wsInv fuel (takeWhileLow_low cs)]
  rfl

theorem parseElements_skipWs_eq (fuel : Nat) (cs : List Char) :
    parseElements fuel (skipWs cs) = parseElements fuel cs := by
  conv_rhs =>
    rw [← List.takeWhile_append_dropWhile (fun c => decide (c.toNat ≤ 32)) cs]
  rw [parseElements_wsInv fuel (takeWhileLow_low cs)]
  rfl

/-! Escaping round-trip lemmas. -/

theorem escapeChar_eq_self {c : Char} (h32 : 32 ≤ c.toNat) (hq : c ≠ '"')
    (hb : c ≠ '\\') : escapeChar c = [c] := by
  have h08 : c ≠ '\x08' := by rintro rfl; exact absurd h32 (by decide)
  have h0c : c ≠ '\x0c' := by rintro rfl; exact absurd h32 (by decide)
  have h0a : c ≠ '\n' := by rintro rfl; exact absurd h32 (by decide)
  have h0d : c ≠ '\r' := by rintro rfl; exact absurd h32 (by decide)
  have h09 : c ≠ '\t' := by rintro rfl; exact absurd h32 (by decide)
  unfold escapeChar
  rw [if_neg hq, if_neg hb, if_neg h08, if_neg h0c, if_neg h0a, if_neg h0d,
    if_neg h09, if_neg (Nat.not_lt.mpr h32)]

theorem parseStringBody_escaped {l : List Char} (h : ∀ c ∈ l, 32 ≤ c.toNat)
    (rest : List Char) :
    parseStringBody (escapeList l ++ '"' :: rest) = some (l, rest) := by
  induction l with
  | nil =>
    rw [escapeList, List.map_nil, List.flatten_nil, List.nil_append,
      parseStringBody.eq_def]
    simp
  | cons c cs ih =>
    have hc := h c (by simp)
    have ih2 := ih (fun x hx => h x (by simp [hx]))
    have hesc : escapeList (c :: cs) = escapeChar c ++ escapeList cs := by
      simp [escapeList]
    by_cases hq : c = '"'
    · subst hq
      have he : escapeChar '"' = ['\\', '"'] := rfl
      rw [hesc, he]
      simp only [List.append_assoc, List.cons_append, List.nil_append]
      rw [parseStringBody.eq_def]
      simp [escCharOf, ih2]
    · by_cases hb : c = '\\'
      · subst hb
        have he : escapeChar '\\' = ['\\', '\\'] := rfl
        rw [hesc, he]
        simp only [List.append_assoc, List.cons_append, List.nil_append]
        rw [parseStringBody.eq_def]
        simp [escCharOf, ih2]
      · rw [hesc, escapeChar_eq_self hc hq hb]
        simp only [List.append_assoc, List.cons_append, List.nil_append]
        rw [parseStringBody.eq_def]
        simp [hq, hb, ih2]

/-! Fuel-measure facts and printed-head facts for the round trip. -/

theorem jsonFuel_pos (j : Json) : 1 ≤ jsonFuel j := by
  cases j <;> simp [jsonFuel]

theorem fuelElems_pos {vs : List Json} (h : vs ≠ []) : 1 ≤ fuelElems vs := by
  cases vs with
  | nil => exact absurd rfl h
  | cons v vs => simp [fuelElems]; omega

theorem fuelMems_pos {ms : List (String × Json)} (h : ms ≠ []) :
    1 ≤ fuelMems ms := by
  cases ms with
  | nil => exact absurd rfl h
  | cons m ms =>
    obtain ⟨k, v⟩ := m
    simp [fuelMems]
    omega

theorem printableString_iff (s : String) :
    printableString s = true ↔ ∀ c ∈ s.data, 32 ≤ c.toNat := by
  simp [printableString, printableChar, List.all_eq_true]

/-- The first character of a printed clean value: it survives whitespace
skipping and is none of the structural closers. -/
theorem printValue_head (d : Nat) (j : Json) (hc : JsonClean j = true) :
    ∃ c t, printValue d j = c :: t ∧ ¬ c.toNat ≤ 32 ∧ c ≠ ']' ∧ c ≠ '\x7d' := by
  have hgood : ∀ (x : Char) (r : List Char),
      ¬ x.toNat ≤ 32 → x ≠ ']' → x ≠ '\x7d' →
      ∃ c t, (x :: r : List Char) = c :: t ∧ ¬ c.toNat ≤ 32 ∧ c ≠ ']' ∧ c ≠ '\x7d' :=
    fun x r h1 h2 h3 => ⟨x, r, rfl, h1, h2, h3⟩
  match j with
  | .null => exact hgood 'n' _ (by decide) (by decide) (by decide)
  | .bool true => exact hgood 't' _ (by decide) (by decide) (by decide)
  | .bool false => exact hgood 'f' _ (by decide) (by decide) (by decide)
  | .num lex => simp [JsonClean] at hc
  | .str s => exact hgood '"' _ (by decide) (by decide) (by decide)
  | .arr vs => exact hgood '[' _ (by decide) (by decide) (by decide)
  | .obj ms => exact hgood '\x7b' _ (by decide) (by decide) (by decide)

theorem parseValue_consLow (fuel : Nat) {c : Char} (h : c.toNat ≤ 32)
    (cs : List Char) : parseValue fuel (c :: cs) = parseValue fuel cs := by
  have hws : ∀ x ∈ [c], x.toNat ≤ 32 := by simpa using h
  simpa using parseValue_wsInv fuel hws cs

theorem parseMembers_consLow (fuel : Nat) {c : Char} (h : c.toNat ≤ 32)
    (cs : List Char) : parseMembers fuel (c :: cs) = parseMembers fuel cs := by
  have hws : ∀ x ∈ [c], x.toNat ≤ 32 := by simpa using h
  simpa using parseMembers_wsInv fuel hws cs

theorem parseElements_consLow (fuel : Nat) {c : Char} (h : c.toNat ≤ 32)
    (cs : List Char) : parseElements fuel (c :: cs) = parseElements fuel cs := by
  have hws : ∀ x ∈ [c], x.toNat ≤ 32 := by simpa using h
  simpa using parseElements_wsInv fuel hws cs

theorem parseValue_braceBranch (f : Nat) (X : List Char) :
    parseValue (f + 1) ('\x7b' :: X) =
      match skipWs X with
      | [] => none
      | c2 :: r2 =>
        if c2 = '\x7d' then some (Json.obj [], r2)
        else
          match parseMembers f (c2 :: r2) with
          | some (ms, r) => some (Json.obj ms, r)
          | none => none := by
  simp only [parseValue.eq_def]
  rw [skipWs_cons_high (by decide)]
  rfl

theorem parseMembers_quoteBranch (f : Nat) (X : List Char) :
    parseMembers (f + 1) ('"' :: X) =
      match parseStringBody X with
      | none => none
      | some (key, r1) =>
        match skipWs r1 with
        | [] => none
        | c2 :: r2 =>
          if c2 = ':' then
            match parseValue f r2 with
            | none => none
            | some (v, r3) =>
              match skipWs r3 with
              | [] => none
              | c3 :: r4 =>
                if c3 = ',' then
                  match parseMembers f r4 with
                  | some (ms, r) => some ((String.mk key, v) :: ms, r)
                  | none => none
                else if c3 = '\x7d' then some ([(String.mk key, v)], r4)
                else none
          else none := by
  rw [parseMembers.eq_def]
  dsimp only []
  rw [skipWs_cons_high (by decide)]
  rfl

theorem parseValue_quoteBranch (f : Nat) (X : List Char) :
    parseValue (f + 1) ('"' :: X) =
      match parseStringBody X with
      | some (s, r) => some (Json.str (String.mk s), r)
      | none => none := by
  simp only [parseValue.eq_def]
  rw [skipWs_cons_high (by decide)]
  rfl

theorem parseValue_bracketBranch (f : Nat) (X : List Char) :
    parseValue (f + 1) ('[' :: X) =
      match skipWs X with
      | [] => none
      | c2 :: r2 =>
        if c2 = ']' then some (Json.arr [], r2)
        else
          match parseElements f (c2 :: r2) with
          | some (vs, r) => some (Json.arr vs, r)
          | none => none := by
  simp only [parseValue.eq_def]
  rw [skipWs_cons_high (by decide)]
  rfl

/-- The parser reads back exactly what the formatted printer wrote: at any
depth, for any clean value, with any fuel at least the value's measure.
The three conjuncts treat values, array element lists and object member
lists of cJSON's mutual grammar. -/
theorem rt_main : ∀ fuel : Nat,
    (∀ j, JsonClean j = true → jsonFuel j ≤ fuel → ∀ d rest,
      parseValue fuel (printValue d j ++ rest) = some (j, rest)) ∧
    (∀ vs, vs ≠ [] → cleanElems vs = true → fuelElems vs ≤ fuel → ∀ d rest,
      parseElements fuel (printArrItems d vs ++ ']' :: rest) = some (vs, rest)) ∧
    (∀ ms, ms ≠ [] → cleanMems ms = true → fuelMems ms ≤ fuel →
      ∀ d ws rest, (∀ c ∈ ws, c.toNat ≤ 32) →
      parseMembers fuel (printMembers d ms ++ (ws ++ '\x7d' :: rest)) =
        some (ms, rest)) := by
  intro fuel
  induction fuel with
  | zero =>
    refine ⟨?_, ?_, ?_⟩
    · intro j _ hf _ _
      exact absurd hf (by have := jsonFuel_pos j; omega)
    · intro vs hne _ hf _ _
      exact absurd hf (by have := fuelElems_pos hne; omega)
    · intro ms hne _ hf _ _ _ _
      exact absurd hf (by have := fuelMems_pos hne; omega)
  | succ f ih =>
    obtain ⟨ihv, ihe, ihm⟩ := ih
    refine ⟨?_, ?_, ?_⟩
    · intro j hc hf d rest
      cases j with
      | null =>
        simp only [printValue, List.cons_append, List.nil_append,
          parseValue.eq_def]
        rw [skipWs_cons_high (by decide)]
        simp [dropLit]
      | bool b =>
        cases b with
        | true =>
          simp only [printValue, List.cons_append, List.nil_append,
            parseValue.eq_def]
          rw [skipWs_cons_high (by decide)]
          simp [dropLit]
        | false =>
          simp only [printValue, List.cons_append, List.nil_append,
            parseValue.eq_def]
          rw [skipWs_cons_high (by decide)]
          simp [dropLit]
      | num lex => simp [JsonClean] at hc
      | str s =>
        simp only [printValue, printStringChars, List.cons_append,
          List.append_assoc, List.nil_append, parseValue.eq_def]
        rw [skipWs_cons_high (by decide)]
        have hp : ∀ c ∈ s.data, 32 ≤ c.toNat :=
          (printableString_iff s).mp (by simpa [JsonClean] using hc)
        simp [parseStringBody_escaped hp]
      | arr vs =>
        cases vs with
        | nil =>
          simp only [printValue, printArrItems, List.cons_append,
            List.nil_append, parseValue.eq_def]
          rw [skipWs_cons_high (by decide)]
          simp [skipWs_cons_high (show ¬ (']'.toNat ≤ 32) by decide)]
        | cons v vs2 =>
          have hcv : JsonClean v = true ∧ cleanElems vs2 = true := by
            simpa [JsonClean, cleanElems, Bool.and_eq_true] using hc
          obtain ⟨c0, t0, he0, h32, hb1, _⟩ := printValue_head d v hcv.1
          have hta : ∃ t, printArrItems d (v :: vs2) = c0 :: t := by
            cases vs2 with
            | nil => exact ⟨t0, by simp [printArrItems, he0]⟩
            | cons v2 vs3 =>
              exact ⟨t0 ++ ',' :: ' ' :: printArrItems d (v2 :: vs3),
                by simp [printArrItems, he0]⟩
          obtain ⟨tA, htA⟩ := hta
          have hfe : fuelElems (v :: vs2) ≤ f := by
            simp [jsonFuel] at hf; omega
          have hres := ihe (v :: vs2) (by simp) (by simp [cleanElems, hcv.1, hcv.2]) hfe d rest
          have hskipA : skipWs (printArrItems d (v :: vs2) ++ ']' :: rest) =
              c0 :: (tA ++ ']' :: rest) := by
            rw [htA]
            simp only [List.cons_append]
            exact skipWs_cons_high h32 _
          have hres2 : parseElements f (c0 :: (tA ++ ']' :: rest)) =
              some (v :: vs2, rest) := by
            rw [show c0 :: (tA ++ ']' :: rest) =
              printArrItems d (v :: vs2) ++ ']' :: rest by
                rw [htA, List.cons_append]]
            exact hres
          simp only [printValue, List.cons_append, List.append_assoc,
            List.nil_append]
          rw [parseValue_bracketBranch, hskipA]
          dsimp only []
          rw [if_neg hb1, hres2]
      | obj ms =>
        cases ms with
        | nil =>
          simp only [printValue, printMembers, List.cons_append,
            List.nil_append, parseValue.eq_def]
          rw [skipWs_cons_high (by decide)]
          have hlow : ∀ c ∈ '\n' :: tabsChars d, c.toNat ≤ 32 := by
            intro c hcm
            rcases List.mem_cons.mp hcm with h1 | h2
            · subst h1; decide
            · exact tabsChars_low d c h2
          have hskip : skipWs ('\n' :: (tabsChars d ++ '\x7d' :: rest)) =
              '\x7d' :: rest := by
            have := skipWs_append_low hlow ('\x7d' :: rest)
            simpa [skipWs_cons_high (show ¬ ('\x7d'.toNat ≤ 32) by decide)]
              using this
          simp [hskip]
        | cons m ms2 =>
          obtain ⟨k, v⟩ := m
          have hck : printableString k = true ∧ JsonClean v = true ∧
              cleanMems ms2 = true := by
            simpa [JsonClean, cleanMems, Bool.and_eq_true, and_assoc] using hc
          have hfm : fuelMems ((k, v) :: ms2) ≤ f := by
            simp [jsonFuel] at hf; omega
          have hres := ihm ((k, v) :: ms2) (by simp)
            (by simp [cleanMems, hck.1, hck.2.1, hck.2.2]) hfm (d + 1)
            (tabsChars d) rest (tabsChars_low d)
          -- the printed members start, after indentation, with the key quote
          have hpm : printMembers (d + 1) ((k, v) :: ms2) =
              tabsChars (d + 1) ++ ('"' ::
                (escapeList k.data ++ ('"' :: (':' :: '\t' :: (printValue (d + 1) v ++
                  ((if ms2.isEmpty then ['\n'] else [',', '\n']) ++
                    printMembers (d + 1) ms2)))))) := by
            simp [printMembers, printStringChars, List.append_assoc]
          have hskip2 : skipWs ('\n' :: (printMembers (d + 1) ((k, v) :: ms2) ++
              (tabsChars d ++ '\x7d' :: rest))) =
              '"' :: (escapeList k.data ++ ('"' :: (':' :: '\t' ::
                (printValue (d + 1) v ++
                  ((if ms2.isEmpty then ['\n'] else [',', '\n']) ++
                    (printMembers (d + 1) ms2 ++
                      (tabsChars d ++ '\x7d' :: rest))))))) := by
            rw [skipWs_cons_low (by decide), hpm]
            simp only [List.append_assoc, List.cons_append]
            rw [skipWs_append_low (tabsChars_low (d + 1))]
            exact skipWs_cons_high (by decide) _
          have hmem := parseMembers_skipWs_eq f ('\n' ::
            (printMembers (d + 1) ((k, v) :: ms2) ++ (tabsChars d ++ '\x7d' :: rest)))
          rw [hskip2] at hmem
          have hmem2 : parseMembers f ('"' :: (escapeList k.data ++ ('"' :: (':' :: '\t' ::
              (printValue (d + 1) v ++
                ((if ms2.isEmpty then ['\n'] else [',', '\n']) ++
                  (printMembers (d + 1) ms2 ++
                    (tabsChars d ++ '\x7d' :: rest)))))))) = some ((k, v) :: ms2, rest) := by
            rw [hmem, parseMembers_consLow f (by decide)]
            exact hres
          simp only [printValue, List.cons_append, List.append_assoc,
            List.nil_append]
          rw [parseValue_braceBranch, hskip2]
          dsimp only []
          rw [if_neg (by decide), hmem2]
    · intro vs hne hc hf d rest
      cases vs with
      | nil => exact absurd rfl hne
      | cons v vs2 =>
        have hcv : JsonClean v = true ∧ cleanElems vs2 = true := by
          simpa [cleanElems, Bool.and_eq_true] using hc
        rw [parseElements.eq_def]
        dsimp only []
        cases vs2 with
        | nil =>
          have hfv : jsonFuel v ≤ f := by simp [fuelElems] at hf; omega
          simp only [printArrItems]
          rw [ihv v hcv.1 hfv d (']' :: rest)]
          dsimp only []
          rw [skipWs_cons_high (by decide)]
          simp
        | cons v2 vs3 =>
          have hfv : jsonFuel v ≤ f := by simp [fuelElems] at hf; omega
          have hfe2 : fuelElems (v2 :: vs3) ≤ f := by
            simp [fuelElems] at hf ⊢; omega
          simp only [printArrItems, List.append_assoc, List.cons_append]
          rw [ihv v hcv.1 hfv d (',' :: ' ' :: (printArrItems d (v2 :: vs3) ++ ']' :: rest))]
          dsimp only []
          rw [skipWs_cons_high (by decide)]
          have hrec := ihe (v2 :: vs3) (by simp) hcv.2 hfe2 d rest
          simp [parseElements_consLow f (show (' '.toNat ≤ 32) by decide), hrec]
    · intro ms hne hc hf d ws rest hws
      cases ms with
      | nil => exact absurd rfl hne
      | cons m ms2 =>
        obtain ⟨k, v⟩ := m
        have hck : printableString k = true ∧ JsonClean v = true ∧
            cleanMems ms2 = true := by
          simpa [cleanMems, Bool.and_eq_true, and_assoc] using hc
        have hk32 : ∀ c ∈ k.data, 32 ≤ c.toNat := (printableString_iff k).mp hck.1
        have hfv : jsonFuel v ≤ f := by simp [fuelMems] at hf; omega
        cases ms2 with
        | nil =>
          simp only [printMembers, printStringChars, List.isEmpty_nil,
            if_true, List.append_assoc, List.cons_append, List.nil_append]
          rw [parseMembers_wsInv (f + 1) (tabsChars_low d)]
          rw [parseMembers_quoteBranch]
          rw [parseStringBody_escaped hk32]
          dsimp only []
          rw [skipWs_cons_high (by decide)]
          dsimp only []
          rw [if_pos rfl]
          rw [parseValue_consLow f (by decide)]
          rw [ihv v hck.2.1 hfv d ('\n' :: (ws ++ '\x7d' :: rest))]
          dsimp only []
          have hsk : skipWs ('\n' :: (ws ++ '\x7d' :: rest)) = '\x7d' :: rest := by
            rw [skipWs_cons_low (by decide)]
            rw [skipWs_append_low hws]
            exact skipWs_cons_high (by decide) rest
          rw [hsk]
          dsimp only []
          rw [if_neg (by decide), if_pos rfl]
        | cons m2 ms3 =>
          obtain ⟨k2, v2⟩ := m2
          have hfm2 : fuelMems ((k2, v2) :: ms3) ≤ f := by
            simp [fuelMems] at hf ⊢; omega
          simp only [printMembers, printStringChars, List.isEmpty_cons,
            Bool.false_eq_true, if_false, List.append_assoc, List.cons_append,
            List.nil_append]
          rw [parseMembers_wsInv (f + 1) (tabsChars_low d)]
          rw [parseMembers_quoteBranch]
          rw [parseStringBody_escaped hk32]
          dsimp only []
          rw [skipWs_cons_high (by decide)]
          dsimp only []
          rw [if_pos rfl]
          rw [parseValue_consLow f (by decide)]
          rw [ihv v hck.2.1 hfv d
            (',' :: '\n' :: (tabsChars d ++ '"' :: (escapeList k2.data ++
              '"' :: ':' :: '\t' :: (printValue d v2 ++
                ((if ms3.isEmpty then ['\n'] else [',', '\n']) ++
                  (printMembers d ms3 ++ (ws ++ '\x7d' :: rest)))))))]
          dsimp only []
          rw [skipWs_cons_high (by decide)]
          dsimp only []
          rw [if_pos rfl]
          rw [parseMembers_consLow f (by decide)]
          have hrec := ihm ((k2, v2) :: ms3) (by simp) hck.2.2 hfm2 d ws rest hws
          have hrec2 : parseMembers f (tabsChars d ++ '"' :: (escapeList k2.data ++
              '"' :: ':' :: '\t' :: (printValue d v2 ++
                ((if ms3.isEmpty then ['\n'] else [',', '\n']) ++
                  (printMembers d ms3 ++ (ws ++ '\x7d' :: rest)))))) =
              some ((k2, v2) :: ms3, rest) := by
            have heq : printMembers d ((k2, v2) :: ms3) ++ (ws ++ '\x7d' :: rest) =
                tabsChars d ++ '"' :: (escapeList k2.data ++
                  '"' :: ':' :: '\t' :: (printValue d v2 ++
                    ((if ms3.isEmpty then ['\n'] else [',', '\n']) ++
                      (printMembers d ms3 ++ (ws ++ '\x7d' :: rest))))) := by
              simp [printMembers, printStringChars, List.append_assoc]
            rw [← heq]
            exact hrec
          rw [hrec2]


/-! The module's hand-built strings, related to the printer. -/

theorem goodChar_split {c : Char} (h : goodChar c = true) :
    32 ≤ c.toNat ∧ c ≠ '"' ∧ c ≠ '\\' := by
  simp only [goodChar, Bool.and_eq_true, decide_eq_true_eq, bne_iff_ne,
    ne_eq] at h
  exact ⟨h.1.1, h.1.2, h.2⟩

theorem goodString_split {s : String} (h : goodString s = true) :
    ∀ c ∈ s.data, 32 ≤ c.toNat ∧ c ≠ '"' ∧ c ≠ '\\' := by
  intro c hc
  have := (List.all_eq_true.mp h) c hc
  exact goodChar_split this

theorem escapeList_eq_self {l : List Char}
    (h : ∀ c ∈ l, 32 ≤ c.toNat ∧ c ≠ '"' ∧ c ≠ '\\') : escapeList l = l := by
  induction l with
  | nil => rfl
  | cons c cs ih =>
    have hc := h c (by simp)
    have : escapeList (c :: cs) = escapeChar c ++ escapeList cs := by
      simp [escapeList]
    rw [this, escapeChar_eq_self hc.1 hc.2.1 hc.2.2,
      ih (fun x hx => h x (by simp [hx]))]
    rfl

mutual

theorem jsonFuel_le_print (d : Nat) (j : Json) (hc : JsonClean j = true) :
    jsonFuel j ≤ (printValue d j).length := by
  cases j with
  | null => simp [jsonFuel, printValue]
  | bool b => cases b <;> simp [jsonFuel, printValue]
  | num lex => simp [JsonClean] at hc
  | str s => simp [jsonFuel, printValue, printStringChars]
  | arr vs =>
    have h2 := fuelElems_le_print d vs (by simpa [JsonClean] using hc)
    simp only [jsonFuel, printValue]
    simp only [List.length_cons, List.length_append]
    omega
  | obj ms =>
    have h2 := fuelMems_le_print (d + 1) ms (by simpa [JsonClean] using hc)
    simp only [jsonFuel, printValue]
    simp only [List.length_cons, List.length_append]
    omega

theorem fuelElems_le_print (d : Nat) (vs : List Json)
    (hc : cleanElems vs = true) : fuelElems vs ≤ (printArrItems d vs).length + 1 := by
  cases vs with
  | nil => simp [fuelElems]
  | cons v vs2 =>
    have hcv : JsonClean v = true ∧ cleanElems vs2 = true := by
      simpa [cleanElems, Bool.and_eq_true] using hc
    have h1 := jsonFuel_le_print d v hcv.1
    cases vs2 with
    | nil => simp only [fuelElems, printArrItems]; omega
    | cons v2 vs3 =>
      have h2 := fuelElems_le_print d (v2 :: vs3) hcv.2
      simp only [fuelElems, printArrItems] at h2 ⊢
      simp only [List.length_append, List.length_cons]
      omega

theorem fuelMems_le_print (d : Nat) (ms : List (String × Json))
    (hc : cleanMems ms = true) : fuelMems ms ≤ (printMembers d ms).length + 1 := by
  cases ms with
  | nil => simp [fuelMems]
  | cons m ms2 =>
    obtain ⟨k, v⟩ := m
    have hck : printableString k = true ∧ JsonClean v = true ∧
        cleanMems ms2 = true := by
      simpa [cleanMems, Bool.and_eq_true, and_assoc] using hc
    have h1 := jsonFuel_le_print d v hck.2.1
    have h2 := fuelMems_le_print d ms2 hck.2.2
    simp only [fuelMems, printMembers]
    simp only [List.length_append, List.length_cons, printStringChars]
    have hsep : (if ms2.isEmpty then ['\n'] else [',', '\n']).length ≤ 2 := by
      cases ms2 <;> simp
    omega

end

/-- The printed form of a clean value, fed to the cJSON parser model at its
standard fuel, parses back to the value with nothing left over. -/
theorem cJSON_ParseModel_print (j : Json) (hc : JsonClean j = true) :
    cJSON_ParseModel (String.mk (printValue 0 j)) = some j := by
  have hlen : jsonFuel j ≤ 2 * (printValue 0 j).length + 2 := by
    have := jsonFuel_le_print 0 j hc
    omega
  have h := (rt_main (2 * (printValue 0 j).length + 2)).1 j hc hlen 0 []
  rw [List.append_nil] at h
  unfold cJSON_ParseModel
  rw [show (String.mk (printValue 0 j)).data = printValue 0 j from rfl, h]


/-- Parsing the one-member object text the file handlers build:
a brace, a quoted key, a colon and space, a quoted string value, a brace. -/
theorem parseValue_oneStrMemberObj (key p : String)
    (hk : ∀ c ∈ key.data, c ≠ '"' ∧ c ≠ '\\')
    (hp : ∀ c ∈ p.data, c ≠ '"' ∧ c ≠ '\\') (fuel : Nat) (rest : List Char) :
    parseValue (fuel + 3) ('\x7b' :: '"' ::
      (key.data ++ '"' :: ':' :: ' ' :: '"' :: (p.data ++ '"' :: '\x7d' :: rest))) =
      some (Json.obj [(key, Json.str p)], rest) := by
  rw [show (fuel + 3 : Nat) = fuel + 2 + 1 from rfl]
  rw [parseValue_braceBranch]
  rw [skipWs_cons_high (by decide)]
  dsimp only []
  rw [if_neg (by decide)]
  rw [show (fuel + 2 : Nat) = fuel + 1 + 1 from rfl]
  rw [parseMembers_quoteBranch]
  rw [parseStringBody_clean hk]
  dsimp only []
  rw [skipWs_cons_high (by decide)]
  dsimp only []
  rw [if_pos rfl]
  rw [parseValue_consLow (fuel + 1) (by decide)]
  rw [parseValue_quoteBranch]
  rw [parseStringBody_clean hp]
  dsimp only []
  rw [skipWs_cons_high (by decide)]
  dsimp only []
  rw [if_neg (by decide), if_pos rfl]

/-- Parsing the two-member object text `list_directory` builds: a quoted
string member followed by a member whose value is any clean printed value
(in use, the files array). -/
theorem parseValue_strThenValueObj (key1 p key2 : String) (v2 : Json)
    (hk1 : ∀ c ∈ key1.data, c ≠ '"' ∧ c ≠ '\\')
    (hp : ∀ c ∈ p.data, c ≠ '"' ∧ c ≠ '\\')
    (hk2 : ∀ c ∈ key2.data, c ≠ '"' ∧ c ≠ '\\')
    (hc2 : JsonClean v2 = true) (fuel : Nat) (hfu : jsonFuel v2 ≤ fuel)
    (rest : List Char) :
    parseValue (fuel + 3) ('\x7b' :: '"' ::
      (key1.data ++ '"' :: ':' :: ' ' :: '"' ::
        (p.data ++ '"' :: ',' :: ' ' :: '"' ::
          (key2.data ++ '"' :: ':' :: ' ' :: (printValue 0 v2 ++ '\x7d' :: rest))))) =
      some (Json.obj [(key1, Json.str p), (key2, v2)], rest) := by
  rw [show (fuel + 3 : Nat) = fuel + 2 + 1 from rfl]
  rw [parseValue_braceBranch]
  rw [skipWs_cons_high (by decide)]
  dsimp only []
  rw [if_neg (by decide)]
  rw [show (fuel + 2 : Nat) = fuel + 1 + 1 from rfl]
  rw [parseMembers_quoteBranch]
  rw [parseStringBody_clean hk1]
  dsimp only []
  rw [skipWs_cons_high (by decide)]
  dsimp only []
  rw [if_pos rfl]
  rw [parseValue_consLow (fuel + 1) (by decide)]
  rw [parseValue_quoteBranch]
  rw [parseStringBody_clean hp]
  dsimp only []
  rw [skipWs_cons_high (by decide)]
  dsimp only []
  rw [if_pos rfl]
  rw [parseMembers_consLow (fuel + 1) (by decide)]
  rw [show (fuel + 1 : Nat) = fuel + 1 from rfl, parseMembers_quoteBranch]
  rw [parseStringBody_clean hk2]
  dsimp only []
  rw [skipWs_cons_high (by decide)]
  dsimp only []
  rw [if_pos rfl]
  rw [parseValue_consLow fuel (by decide)]
  rw [(rt_main fuel).1 v2 hc2 hfu 0 ('\x7d' :: rest)]
  dsimp only []
  rw [skipWs_cons_high (by decide)]
  dsimp only []
  rw [if_neg (by decide), if_pos rfl]


/-- A string whose text is exactly the one-member object the file handlers
format parses to that object and is valid standalone JSON. -/
theorem parse_oneStrMemberString (key p s : String)
    (hk : ∀ c ∈ key.data, c ≠ '"' ∧ c ≠ '\\')
    (hp : ∀ c ∈ p.data, c ≠ '"' ∧ c ≠ '\\')
    (hs : s.data = '\x7b' :: '"' ::
      (key.data ++ '"' :: ':' :: ' ' :: '"' :: (p.data ++ '"' :: '\x7d' :: []))) :
    cJSON_ParseModel s = some (Json.obj [(key, Json.str p)]) ∧
      isValidJson s = true := by
  obtain ⟨k, hk3⟩ : ∃ k, 2 * s.data.length + 2 = k + 3 :=
    ⟨2 * s.data.length - 1, by
      have : 1 ≤ s.data.length := by rw [hs]; simp
      omega⟩
  have hparse := parseValue_oneStrMemberObj key p hk hp k []
  constructor
  · unfold cJSON_ParseModel
    rw [hk3, hs, hparse]
  · unfold isValidJson
    rw [hk3, hs, hparse]
    rfl

/-- The `data` text built by `create_file_with_content` on success. -/
theorem create_file_data_eq (p c0 : String) :
    (create_file_with_content p c0 true).data =
      String.mk (('\x7b' :: '"' ::
        ("path".data ++ '"' :: ':' :: ' ' :: '"' :: (p.data ++ '"' :: '\x7d' :: []))).take 2047) := by
  show snprintfModel 2048 "\x7b\"path\": \"%s\"\x7d" [p] = _
  unfold snprintfModel
  have hsplit : ("\x7b\"path\": \"%s\"\x7d").data =
      "\x7b\"path\": \"".data ++ '%' :: 's' :: ['"', '\x7d'] := rfl
  rw [hsplit, sprintfAux_lit (by decide), sprintfAux_pct_s,
    sprintfAux_no_pct (by decide)]
  rfl

/-- The `data` text built by `delete_file` on success. -/
theorem delete_file_data_eq (p : String) :
    (delete_file p true).data =
      String.mk (('\x7b' :: '"' ::
        ("path".data ++ '"' :: ':' :: ' ' :: '"' :: (p.data ++ '"' :: '\x7d' :: []))).take 2047) := by
  show snprintfModel 2048 "\x7b\"path\": \"%s\"\x7d" [p] = _
  unfold snprintfModel
  have hsplit : ("\x7b\"path\": \"%s\"\x7d").data =
      "\x7b\"path\": \"".data ++ '%' :: 's' :: ['"', '\x7d'] := rfl
  rw [hsplit, sprintfAux_lit (by decide), sprintfAux_pct_s,
    sprintfAux_no_pct (by decide)]
  rfl

/-- The `data` text built by `open_application` on success. -/
theorem open_application_data_eq (a : String) :
    (open_application a true).data =
      String.mk (('\x7b' :: '"' ::
        ("app".data ++ '"' :: ':' :: ' ' :: '"' :: (a.data ++ '"' :: '\x7d' :: []))).take 2047) := by
  show snprintfModel 2048 "\x7b\"app\": \"%s\"\x7d" [a] = _
  unfold snprintfModel
  have hsplit : ("\x7b\"app\": \"%s\"\x7d").data =
      "\x7b\"app\": \"".data ++ '%' :: 's' :: ['"', '\x7d'] := rfl
  rw [hsplit, sprintfAux_lit (by decide), sprintfAux_pct_s,
    sprintfAux_no_pct (by decide)]
  rfl

/-- Success `data` of `create_file_with_content` for a clean, short path:
the JSON object with the path under key `path`, and valid JSON. -/
theorem create_file_data_parsed (p c0 : String) (hgood : goodString p = true)
    (hlen : p.length ≤ 2035) :
    cJSON_ParseModel (create_file_with_content p c0 true).data =
      some (Json.obj [("path", Json.str p)]) ∧
    isValidJson (create_file_with_content p c0 true).data = true := by
  have hsplit := goodString_split hgood
  apply parse_oneStrMemberString "path" p _ (by decide)
    (fun c hc => (hsplit c hc).2)
  rw [create_file_data_eq]
  show List.take 2047 _ = _
  rw [List.take_of_length_le]
  have : p.data.length = p.length := rfl
  simp [List.length_append]
  omega

/-- Success `data` of `delete_file` for a clean, short path. -/
theorem delete_file_data_parsed (p : String) (hgood : goodString p = true)
    (hlen : p.length ≤ 2035) :
    cJSON_ParseModel (delete_file p true).data =
      some (Json.obj [("path", Json.str p)]) ∧
    isValidJson (delete_file p true).data = true := by
  have hsplit := goodString_split hgood
  apply parse_oneStrMemberString "path" p _ (by decide)
    (fun c hc => (hsplit c hc).2)
  rw [delete_file_data_eq]
  show List.take 2047 _ = _
  rw [List.take_of_length_le]
  simp [List.length_append]
  omega

/-- Success `data` of `open_application` for a clean, short name. -/
theorem open_application_data_parsed (a : String) (hgood : goodString a = true)
    (hlen : a.length ≤ 2036) :
    cJSON_ParseModel (open_application a true).data =
      some (Json.obj [("app", Json.str a)]) ∧
    isValidJson (open_application a true).data = true := by
  have hsplit := goodString_split hgood
  apply parse_oneStrMemberString "app" a _ (by decide)
    (fun c hc => (hsplit c hc).2)
  rw [open_application_data_eq]
  show List.take 2047 _ = _
  rw [List.take_of_length_le]
  simp [List.length_append]
  omega


/-- A string whose text is exactly the two-member object `list_directory`
formats parses to that object and is valid standalone JSON. -/
theorem parse_strThenValueString (key1 p key2 s : String) (v2 : Json)
    (hk1 : ∀ c ∈ key1.data, c ≠ '"' ∧ c ≠ '\\')
    (hp : ∀ c ∈ p.data, c ≠ '"' ∧ c ≠ '\\')
    (hk2 : ∀ c ∈ key2.data, c ≠ '"' ∧ c ≠ '\\')
    (hc2 : JsonClean v2 = true)
    (hs : s.data = '\x7b' :: '"' ::
      (key1.data ++ '"' :: ':' :: ' ' :: '"' ::
        (p.data ++ '"' :: ',' :: ' ' :: '"' ::
          (key2.data ++ '"' :: ':' :: ' ' :: (printValue 0 v2 ++ '\x7d' :: []))))) :
    cJSON_ParseModel s = some (Json.obj [(key1, Json.str p), (key2, v2)]) ∧
      isValidJson s = true := by
  have hpvlen : jsonFuel v2 ≤ (printValue 0 v2).length := jsonFuel_le_print 0 v2 hc2
  have hslen : (printValue 0 v2).length + 1 ≤ s.data.length := by
    rw [hs]
    simp [List.length_append]
    omega
  obtain ⟨k, hk3⟩ : ∃ k, 2 * s.data.length + 2 = k + 3 :=
    ⟨2 * s.data.length - 1, by omega⟩
  have hfu : jsonFuel v2 ≤ k := by omega
  have hparse := parseValue_strThenValueObj key1 p key2 v2 hk1 hp hk2 hc2 k hfu []
  constructor
  · unfold cJSON_ParseModel
    rw [hk3, hs, hparse]
  · unfold isValidJson
    rw [hk3, hs, hparse]
    rfl

/-- One formatted directory entry, for a clean name fitting its buffer:
exactly the quoted name, which is also how the printer renders it. -/
theorem listItem_eq (n : String) (hgood : goodString n = true)
    (hlen : n.length ≤ 253) :
    listItem n = printValue 0 (Json.str n) := by
  have hsplit := goodString_split hgood
  unfold listItem
  rw [show ("\"%s\"").data = '"' :: '%' :: 's' :: ['"'] from rfl]
  rw [sprintfAux_cons_ne (by decide), sprintfAux_pct_s,
    sprintfAux_no_pct (by decide)]
  rw [List.take_of_length_le (by simp [List.length_append]; omega)]
  simp [printValue, printStringChars, escapeList_eq_self hsplit,
    List.cons_append]

/-- The joined items equal the printer's rendering of the names array. -/
theorem filesJsonItems_eq_printArr (names : List String)
    (h : ∀ n ∈ names, goodString n = true ∧ n.length ≤ 253) :
    filesJsonItems names = printArrItems 0 (names.map Json.str) := by
  induction names with
  | nil => rfl
  | cons n ns ih =>
    have hn := h n (by simp)
    cases ns with
    | nil =>
      simp only [filesJsonItems, List.map_cons, List.map_nil, printArrItems]
      exact listItem_eq n hn.1 hn.2
    | cons n2 ns2 =>
      have ih2 := ih (fun x hx => h x (by simp [hx]))
      simp only [filesJsonItems, List.map_cons, printArrItems] at ih2 ⊢
      rw [listItem_eq n hn.1 hn.2, ih2]

/-- Clean names map to a clean JSON string array. -/
theorem cleanElems_map_str (l : List String)
    (h : ∀ n ∈ l, goodString n = true) :
    cleanElems (l.map Json.str) = true := by
  induction l with
  | nil => rfl
  | cons n ns ih =>
    simp only [List.map_cons, cleanElems, Bool.and_eq_true]
    refine ⟨?_, ih (fun x hx => h x (by simp [hx]))⟩
    show JsonClean (Json.str n) = true
    simp only [JsonClean]
    rw [printableString_iff]
    intro c hc
    exact (goodString_split (h n (by simp)) c hc).1

/-- The `data` text built by `list_directory` on success. -/
theorem list_directory_data_eq (p : String) (entries : List String) :
    (list_directory p entries true).data =
      String.mk (('\x7b' :: '"' ::
        ("path".data ++ '"' :: ':' :: ' ' :: '"' ::
          (p.data ++ '"' :: ',' :: ' ' :: '"' ::
            ("files".data ++ '"' :: ':' :: ' ' ::
              ((list_directory_files_json entries).data ++ '\x7d' :: []))))).take 2047) := by
  show snprintfModel 2048 "\x7b\"path\": \"%s\", \"files\": %s\x7d"
    [p, list_directory_files_json entries] = _
  unfold snprintfModel
  have hsplit : ("\x7b\"path\": \"%s\", \"files\": %s\x7d").data =
      "\x7b\"path\": \"".data ++ '%' :: 's' ::
        ("\", \"files\": ".data ++ '%' :: 's' :: ['\x7d']) := rfl
  rw [hsplit, sprintfAux_lit (by decide), sprintfAux_pct_s,
    sprintfAux_lit (by decide), sprintfAux_pct_s, sprintfAux_no_pct (by decide)]
  congr 2

/-- Success `data` of `list_directory` for clean names and path, within the
fixed buffers: the object carrying the path and the complete name array. -/
theorem list_directory_data_parsed (p : String) (entries : List String)
    (hgoodp : goodString p = true)
    (hnames : ∀ n ∈ entries.filter notDotEntry, goodString n = true ∧ n.length ≤ 253)
    (hlen : 23 + p.length + (list_directory_files_json entries).length ≤ 2047) :
    cJSON_ParseModel (list_directory p entries true).data =
      some (Json.obj [("path", Json.str p),
        ("files", Json.arr ((entries.filter notDotEntry).map Json.str))]) ∧
    isValidJson (list_directory p entries true).data = true := by
  have hfj : (list_directory_files_json entries).data =
      printValue 0 (Json.arr ((entries.filter notDotEntry).map Json.str)) := by
    show '[' :: filesJsonItems (entries.filter notDotEntry) ++ [']'] = _
    rw [filesJsonItems_eq_printArr _ hnames]
    simp [printValue]
  have hclean : JsonClean (Json.arr ((entries.filter notDotEntry).map Json.str)) = true := by
    simp only [JsonClean]
    exact cleanElems_map_str _ (fun n hn => (hnames n hn).1)
  apply parse_strThenValueString "path" p "files" _ _ (by decide)
    (fun c hc => (goodString_split hgoodp c hc).2) (by decide) hclean
  have hlen2 : 23 + p.data.length +
      (list_directory_files_json entries).data.length ≤ 2047 := hlen
  rw [list_directory_data_eq]
  show List.take 2047 _ = _
  rw [List.take_of_length_le (by
    simp only [List.length_cons, List.length_append, List.length_nil,
      show ("path").data.length = 4 from rfl,
      show ("files").data.length = 5 from rfl]
    omega)]
  rw [hfj]


/-! Result-encoder lemmas. -/

theorem string_length_pos {s : String} (h : s ≠ "") : 0 < s.length := by
  cases s with
  | mk l =>
    cases l with
    | nil => exact absurd rfl h
    | cons c cs => simp [String.length]

/-- The wire response, parsed back: `success` as a boolean first, `message`
as a string second, and `data` as the embedded parsed fragment last — only
when the `data` buffer is non-empty and reparses. -/
theorem create_json_response_parsed (r : ExecutionResult)
    (hm : printableString r.message = true) :
    (r.data = "" → cJSON_ParseModel (create_json_response r) =
      some (Json.obj [("success", Json.bool r.success),
        ("message", Json.str r.message)])) ∧
    (∀ dv, cJSON_ParseModel r.data = some dv → JsonClean dv = true →
      cJSON_ParseModel (create_json_response r) =
        some (Json.obj [("success", Json.bool r.success),
          ("message", Json.str r.message), ("data", dv)])) := by
  constructor
  · intro hd
    have hresp : create_json_response r =
        String.mk (printValue 0 (Json.obj [("success", Json.bool r.success),
          ("message", Json.str r.message)])) := by
      unfold create_json_response
      rw [hd]
      rfl
    rw [hresp]
    apply cJSON_ParseModel_print
    simp [JsonClean, cleanMems, printableString, hm]
    constructor
    · decide
    · constructor
      · decide
      · simpa [printableString] using hm
  · intro dv hdv hcdv
    have hne : r.data ≠ "" := by
      intro h0
      rw [h0, show cJSON_ParseModel "" = none from rfl] at hdv
      exact Option.noConfusion hdv
    have hpos : 0 < r.data.length := string_length_pos hne
    have hresp : create_json_response r =
        String.mk (printValue 0 (Json.obj [("success", Json.bool r.success),
          ("message", Json.str r.message), ("data", dv)])) := by
      unfold create_json_response
      dsimp only []
      rw [if_pos hpos, hdv]
      rfl
    rw [hresp]
    apply cJSON_ParseModel_print
    simp only [JsonClean, cleanMems, Bool.and_eq_true]
    refine ⟨⟨by decide, by decide⟩, ⟨⟨by decide, ?_⟩, ⟨?_, ?_⟩, trivial⟩⟩
    · simpa [printableString] using hm
    · decide
    · exact hcdv

/-- An unparseable non-empty `data` buffer is silently dropped: the wire
response is the one an empty `data` would produce. -/
theorem create_json_response_drops_bad_data (r : ExecutionResult)
    (hd : cJSON_ParseModel r.data = none) :
    create_json_response r =
      create_json_response { success := r.success, message := r.message, data := "" } := by
  unfold create_json_response
  dsimp only []
  by_cases h : 0 < r.data.length
  · rw [if_pos h, hd]
    rfl
  · rw [if_neg h]
    rfl

/-! Shell field-splitting lemmas. -/

theorem shellSplit_inQuote {l : List Char} (h : '"' ∉ l) (rest cur : List Char) :
    shellSplit (l ++ '"' :: rest) true cur true =
      shellSplit rest false (cur ++ l) true := by
  induction l generalizing cur with
  | nil =>
    rw [List.nil_append, List.append_nil]
    rw [shellSplit.eq_def]
    simp
  | cons c cs ih =>
    have hc : c ≠ '"' := by rintro rfl; exact h (by simp)
    rw [List.cons_append, shellSplit.eq_def]
    dsimp only []
    rw [if_neg hc]
    by_cases hsp : c = ' '
    · rw [if_pos hsp]
      rw [show cur ++ c :: cs = (cur ++ [c]) ++ cs by simp]
      rw [← ih (fun hx => h (by simp [hx])) (cur ++ [c])]
      subst hsp
      rfl
    · rw [if_neg hsp]
      rw [show cur ++ c :: cs = (cur ++ [c]) ++ cs by simp]
      exact ih (fun hx => h (by simp [hx])) (cur ++ [c])

/-! Assembler lemmas. -/

theorem string_ext {s t : String} (h : s.data = t.data) : s = t := by
  cases s
  cases t
  exact congrArg String.mk h

theorem string_data_append (a b : String) : (a ++ b).data = a.data ++ b.data := rfl

theorem string_length_append (a b : String) :
    (a ++ b).length = a.length + b.length := by
  show (a ++ b).data.length = a.data.length + b.data.length
  rw [string_data_append, List.length_append]

theorem takeWhile_of_all {l : List Char}
    (h : ∀ c ∈ l, (c != nulChar) = true) :
    l.takeWhile (fun c => c != nulChar) = l := by
  induction l with
  | nil => rfl
  | cons c cs ih =>
    rw [List.takeWhile_cons, h c (by simp), ih (fun x hx => h x (by simp [hx]))]
    simp

theorem takeWhile_of_nulFree {chunk : String} (h : nulFree chunk = true) :
    chunk.data.takeWhile (fun c => c != nulChar) = chunk.data :=
  takeWhile_of_all (List.all_eq_true.mp h)

theorem take_min_self (l : List Char) (n : Nat) :
    l.take (min l.length n) = l.take n := by
  rcases Nat.le_total l.length n with h1 | h1
  · rw [min_eq_left h1, List.take_of_length_le (le_refl _),
      List.take_of_length_le h1]
  · rw [min_eq_right h1]

theorem accumulateChunk_step (buf chunk : String) (hb : buf.length ≤ 8191)
    (hc : nulFree chunk = true) :
    accumulateChunk buf chunk =
      buf ++ String.mk (chunk.data.take (8191 - buf.length)) ∧
    (accumulateChunk buf chunk).length =
      buf.length + min chunk.length (8191 - buf.length) := by
  have havail : 8192 - buf.length - 1 = 8191 - buf.length := by omega
  have heq : accumulateChunk buf chunk =
      buf ++ String.mk (chunk.data.take (8191 - buf.length)) := by
    unfold accumulateChunk
    dsimp only []
    rw [takeWhile_of_nulFree hc, havail]
    rw [show min chunk.length (8191 - buf.length) =
      min chunk.data.length (8191 - buf.length) from rfl]
    rw [take_min_self]
  refine ⟨heq, ?_⟩
  rw [heq, string_length_append]
  have h2 : (String.mk (chunk.data.take (8191 - buf.length))).length =
      min (8191 - buf.length) chunk.data.length := by
    show (chunk.data.take (8191 - buf.length)).length = _
    exact List.length_take _ _
  rw [h2]
  have h3 : chunk.length = chunk.data.length := rfl
  omega

theorem accumulateChunk_le (buf chunk : String) (hb : buf.length ≤ 8191) :
    (accumulateChunk buf chunk).length ≤ 8191 := by
  unfold accumulateChunk
  dsimp only []
  rw [string_length_append]
  have h2 : (String.mk ((chunk.data.takeWhile (fun c => c != nulChar)).take
      (min chunk.length (8192 - buf.length - 1)))).length ≤
      8192 - buf.length - 1 := by
    show ((chunk.data.takeWhile (fun c => c != nulChar)).take
      (min chunk.length (8192 - buf.length - 1))).length ≤ _
    rw [List.length_take]
    omega
  omega


theorem assembleBody_le (chunks : List String) :
    (assembleBody chunks).length ≤ 8191 := by
  suffices H : ∀ (cs : List String) (buf : String), buf.length ≤ 8191 →
      (cs.foldl accumulateChunk buf).length ≤ 8191 by
    exact H chunks "" (by decide)
  intro cs
  induction cs with
  | nil => intro buf hb; exact hb
  | cons c cs ih =>
    intro buf hb
    rw [List.foldl_cons]
    exact ih _ (accumulateChunk_le buf c hb)

/-- For NUL-free chunks, the assembled body is exactly the first 8191 bytes
of the concatenated chunks: whatever exceeds that capacity vanishes without
any trace in the buffer the dispatcher sees. -/
theorem assembleBody_eq_take (chunks : List String)
    (h : ∀ s ∈ chunks, nulFree s = true) :
    (assembleBody chunks).data = ((chunks.map String.data).flatten).take 8191 := by
  suffices H : ∀ (cs : List String), (∀ s ∈ cs, nulFree s = true) →
      ∀ pre : List Char,
      (cs.foldl accumulateChunk (String.mk (pre.take 8191))).data =
        (pre ++ (cs.map String.data).flatten).take 8191 by
    have h2 := H chunks h []
    simpa [assembleBody] using h2
  intro cs
  induction cs with
  | nil =>
    intro _ pre
    simp
  | cons c cs ih =>
    intro h0 pre
    have hblen : (String.mk (pre.take 8191)).length ≤ 8191 := by
      show (pre.take 8191).length ≤ 8191
      rw [List.length_take]
      omega
    have hstep : accumulateChunk (String.mk (pre.take 8191)) c =
        String.mk ((pre ++ c.data).take 8191) := by
      have hs := (accumulateChunk_step (String.mk (pre.take 8191)) c hblen
        (h0 c (by simp))).1
      rw [hs]
      apply string_ext
      rw [string_data_append]
      show pre.take 8191 ++ c.data.take (8191 - (pre.take 8191).length) =
        (pre ++ c.data).take 8191
      rw [List.take_append_eq_append_take]
      congr 1
      congr 1
      rw [List.length_take]
      omega
    rw [List.foldl_cons, hstep,
      ih (fun x hx => h0 x (by simp [hx])) (pre ++ c.data)]
    simp [List.append_assoc]


/-! Dispatcher and message lemmas. -/

theorem create_file_written_eq (c : String) : create_file_written c = c := by
  unfold create_file_written
  rw [show ("%s").data = '%' :: 's' :: ([] : List Char) from rfl, sprintfAux_pct_s]
  rw [show sprintfAux ([] : List Char) [] = [] from rfl, List.append_nil]

theorem unknown_action_message_data (a : String) :
    (unknown_action_result a).message.data =
      ("Unknown action: ".data ++ a.data).take 1023 := by
  show (snprintfModel 1024 "Unknown action: %s" [a]).data = _
  unfold snprintfModel
  rw [show ("Unknown action: %s").data =
    "Unknown action: ".data ++ '%' :: 's' :: [] from rfl]
  rw [sprintfAux_lit (by decide), sprintfAux_pct_s]
  rw [show sprintfAux ([] : List Char) [] = [] from rfl, List.append_nil]

theorem unknown_action_message_eq (a : String) (hlen : a.length ≤ 1007) :
    (unknown_action_result a).message = "Unknown action: " ++ a := by
  apply string_ext
  rw [unknown_action_message_data, string_data_append]
  rw [List.take_of_length_le]
  rw [List.length_append]
  have h1 : ("Unknown action: ").data.length = 16 := rfl
  have h2 : a.data.length = a.length := rfl
  omega

theorem dispatchJson_unknown (j : Json) (a : String)
    (ha : valuestringOf (getObjectItem j "action") = some a)
    (h1 : a ≠ "create_file") (h2 : a ≠ "delete_file")
    (h3 : a ≠ "list_directory") :
    dispatchJson j = Dispatched.unknownAction a := by
  unfold dispatchJson
  rw [ha]
  dsimp only []
  rw [if_neg h1, if_neg h2, if_neg h3]

theorem parseValue_x (fuel : Nat) (l : List Char) :
    parseValue (fuel + 1) ('x' :: l) = none := by
  simp only [parseValue.eq_def]
  rw [skipWs_cons_high (by decide)]
  rfl

/-- The 8191-byte all-`x` body (the truncation of any longer all-`x` body)
is rejected as invalid JSON by the dispatcher. -/
theorem dispatchBody_xRepeat :
    dispatchBody (String.mk (List.replicate 8191 'x')) =
      Dispatched.invalidJson := by
  unfold dispatchBody cJSON_ParseModel
  rw [show (String.mk (List.replicate 8191 'x')).data =
    List.replicate 8191 'x' from rfl]
  rw [show (2 * (List.replicate 8191 'x').length + 2 : Nat) = 16383 + 1 by
    rw [List.length_replicate]]
  rw [show (8191 : Nat) = 8190 + 1 from by norm_num, List.replicate_succ]
  rw [parseValue_x]

/-! The `open_application` command line as the shell sees it. -/

theorem open_application_command_data (a : String) (hlen : a.length ≤ 1007) :
    (open_application_command a).data =
      "open -a \"".data ++ (a.data ++ "\" 2>&1".data) := by
  unfold open_application_command snprintfModel
  rw [show ("open -a \"%s\" 2>&1").data =
    "open -a \"".data ++ '%' :: 's' :: ("\" 2>&1").data from rfl]
  rw [sprintfAux_lit (by decide), sprintfAux_pct_s, sprintfAux_no_pct (by decide)]
  show List.take 1023 _ = _
  rw [List.take_of_length_le]
  simp only [List.length_append,
    show ("open -a \"").data.length = 9 from rfl,
    show ("\" 2>&1").data.length = 6 from rfl,
    show a.data.length = a.length from rfl]
  omega

/-- What POSIX field splitting makes of the command `open_application`
builds, for names without a double quote: the name is one discrete field. -/
theorem shellFields_command (a : String) (hq : '"' ∉ a.data)
    (hlen : a.length ≤ 1007) :
    shellFields (open_application_command a) = ["open", "-a", a, "2>&1"] := by
  unfold shellFields
  rw [open_application_command_data a hlen]
  rw [show ("open -a \"").data =
    'o' :: 'p' :: 'e' :: 'n' :: ' ' :: '-' :: 'a' :: ' ' :: '"' :: [] from rfl,
    show ("\" 2>&1").data = '"' :: ' ' :: '2' :: '>' :: '&' :: '1' :: [] from rfl]
  simp only [List.cons_append, List.nil_append]
  simp [shellSplit]
  rw [shellSplit_inQuote hq]
  simp [shellSplit]


/-! Claim theorems. -/

/-- C1: The dispatcher (main.c 152-166) recognizes only `create_file`,
`delete_file` and `list_directory`; a request with action
`open_application` — one of the four actions of the specification, whose
handler exists at main.c 314-341 but is never called — falls through to the
unknown-action branch and yields an `Unknown action: open_application`
failure instead of invoking the handler. -/
theorem c1_open_application_not_dispatched :
    dispatchBody "\x7b\"action\": \"open_application\"\x7d" =
      Dispatched.unknownAction "open_application" ∧
    (unknown_action_result "open_application").success = false ∧
    (unknown_action_result "open_application").message =
      "Unknown action: open_application" := by
  refine ⟨by rfl, rfl, by rfl⟩

/-- C2 counterexample: for the app name `A" "B`, the command string built by
`open_application` splits into five shell fields — the app name is not one
discrete argument (and does not even occur as a field), while a benign name
yields four fields: the executed argument vector depends on quote
characters inside `app_name`. -/
theorem c2_counterexample :
    shellFields (open_application_command "A\" \"B") =
      ["open", "-a", "A", "B", "2>&1"] ∧
    "A\" \"B" ∉ shellFields (open_application_command "A\" \"B") ∧
    shellFields (open_application_command "Safari") =
      ["open", "-a", "Safari", "2>&1"] := by
  refine ⟨by decide, by decide, by decide⟩

/-- C2 amended: `open_application` interpolates `app_name` into the
shell-interpreted command string `open -a "app_name" 2>&1` executed via
`system()`; only for names free of double quotes (and short enough for the
1024-byte buffer) does the shell see `app_name` as one discrete field. -/
theorem c2_amended (app : String) (hq : '"' ∉ app.data)
    (hlen : app.length ≤ 1007) :
    open_application_command app =
      String.mk ("open -a \"".data ++ (app.data ++ "\" 2>&1".data)) ∧
    shellFields (open_application_command app) = ["open", "-a", app, "2>&1"] := by
  refine ⟨string_ext (open_application_command_data app hlen), ?_⟩
  exact shellFields_command app hq hlen

/-- C2 witness. -/
theorem c2_witness :
    open_application_command "Safari" =
      String.mk ("open -a \"".data ++ ("Safari".data ++ "\" 2>&1".data)) ∧
    shellFields (open_application_command "Safari") =
      ["open", "-a", "Safari", "2>&1"] :=
  c2_amended "Safari" (by decide) (by decide)

/-- C3 counterexample: a successful `create_file_with_content` whose path
contains a double quote produces non-empty `data` that is not valid JSON —
the path is interpolated without escaping. -/
theorem c3_counterexample :
    (create_file_with_content "/tmp/a\"b.txt" "hello" true).success = true ∧
    (create_file_with_content "/tmp/a\"b.txt" "hello" true).data ≠ "" ∧
    isValidJson (create_file_with_content "/tmp/a\"b.txt" "hello" true).data =
      false := by
  refine ⟨rfl, by decide, by rfl⟩

/-- C3 amended: the `data` of every successful handler result is valid JSON
provided the interpolated strings (path, app name, directory entry names)
contain no double quote, backslash or control character and the formatted
text fits the fixed buffers; the claim fails without those provisos. -/
theorem c3_amended :
    (∀ p c0, goodString p = true → p.length ≤ 2035 →
      isValidJson (create_file_with_content p c0 true).data = true) ∧
    (∀ p, goodString p = true → p.length ≤ 2035 →
      isValidJson (delete_file p true).data = true) ∧
    (∀ a, goodString a = true → a.length ≤ 2036 →
      isValidJson (open_application a true).data = true) ∧
    (∀ p entries, goodString p = true →
      (∀ n ∈ entries.filter notDotEntry, goodString n = true ∧ n.length ≤ 253) →
      23 + p.length + (list_directory_files_json entries).length ≤ 2047 →
      isValidJson (list_directory p entries true).data = true) :=
  ⟨fun p c0 h1 h2 => (create_file_data_parsed p c0 h1 h2).2,
   fun p h1 h2 => (delete_file_data_parsed p h1 h2).2,
   fun a h1 h2 => (open_application_data_parsed a h1 h2).2,
   fun p entries h1 h2 h3 => (list_directory_data_parsed p entries h1 h2 h3).2⟩

/-- C3 witness. -/
theorem c3_witness :
    isValidJson (create_file_with_content "/tmp/x.txt" "hi" true).data = true ∧
    isValidJson (delete_file "/tmp/x.txt" true).data = true ∧
    isValidJson (open_application "Safari" true).data = true ∧
    isValidJson (list_directory "/tmp" ["a.txt", ".", ".."] true).data = true :=
  ⟨c3_amended.1 "/tmp/x.txt" "hi" (by decide) (by decide),
   c3_amended.2.1 "/tmp/x.txt" (by decide) (by decide),
   c3_amended.2.2.1 "Safari" (by decide) (by decide),
   c3_amended.2.2.2 "/tmp" ["a.txt", ".", ".."] (by decide) (by decide) (by decide)⟩

/-- C4 counterexample: a 9000-byte body is assembled to the same 8191-byte
buffer as the body that is exactly its 8191-byte prefix, so the response —
a function of the assembled buffer alone — carries no record of the
truncation; the dispatcher then reports only `Invalid JSON` for this body. -/
theorem c4_counterexample :
    String.mk (List.replicate 9000 'x') ≠ String.mk (List.replicate 8191 'x') ∧
    assembleBody [String.mk (List.replicate 9000 'x')] =
      String.mk (List.replicate 8191 'x') ∧
    assembleBody [String.mk (List.replicate 8191 'x')] =
      String.mk (List.replicate 8191 'x') ∧
    dispatchBody (assembleBody [String.mk (List.replicate 9000 'x')]) =
      Dispatched.invalidJson := by
  have hnul : ∀ n : Nat, nulFree (String.mk (List.replicate n 'x')) = true := by
    intro n
    simp only [nulFree, List.all_eq_true]
    intro c hc
    have hcx : c = 'x' := List.eq_of_mem_replicate (by simpa using hc)
    subst hcx
    decide
  have hflat : ∀ n : Nat,
      (([String.mk (List.replicate n 'x')].map String.data).flatten) =
        List.replicate n 'x' := by
    intro n
    simp only [List.map_cons, List.map_nil, List.flatten_cons,
      List.flatten_nil, List.append_nil]
  have h9 : assembleBody [String.mk (List.replicate 9000 'x')] =
      String.mk (List.replicate 8191 'x') := by
    apply string_ext
    rw [assembleBody_eq_take _ (by
      intro x hx
      rw [List.mem_singleton.mp hx]
      exact hnul 9000)]
    rw [hflat 9000, List.take_replicate]
    rw [show min 8191 9000 = 8191 from by norm_num]
  have h8 : assembleBody [String.mk (List.replicate 8191 'x')] =
      String.mk (List.replicate 8191 'x') := by
    apply string_ext
    rw [assembleBody_eq_take _ (by
      intro x hx
      rw [List.mem_singleton.mp hx]
      exact hnul 8191)]
    rw [hflat 8191, List.take_replicate]
    rw [show min 8191 8191 = 8191 from by norm_num]
  refine ⟨?_, h9, h8, ?_⟩
  · intro h
    have h2 : (List.replicate 9000 'x').length = (List.replicate 8191 'x').length :=
      congrArg (fun s : String => s.data.length) h
    rw [List.length_replicate, List.length_replicate] at h2
    exact absurd h2 (by norm_num)
  · rw [h9]
    exact dispatchBody_xRepeat

/-- C4 amended: overflow is handled safely but silently — the assembled
body is exactly the first 8191 bytes of the concatenated NUL-free chunks
(never more than 8191 bytes, so the buffer is not corrupted and the process
does not crash), and the dropped bytes leave no trace that could be
documented in the response. -/
theorem c4_amended (chunks : List String) (h : ∀ s ∈ chunks, nulFree s = true) :
    (assembleBody chunks).data = ((chunks.map String.data).flatten).take 8191 ∧
    (assembleBody chunks).length ≤ 8191 :=
  ⟨assembleBody_eq_take chunks h, assembleBody_le chunks⟩

/-- C4 witness. -/
theorem c4_witness :
    (assembleBody ["ab", "cd"]).data =
      (((["ab", "cd"] : List String).map String.data).flatten).take 8191 ∧
    (assembleBody ["ab", "cd"]).length ≤ 8191 :=
  c4_amended ["ab", "cd"] (by decide)

/-- C5 counterexample: one legal 255-byte entry name overflows the 256-byte
per-item buffer, so `list_directory` reports success with non-empty `data`
that is not valid JSON at all — the name array is silently mangled rather
than complete, with no visible truncation or error policy. -/
theorem c5_counterexample :
    (list_directory "/tmp" [String.mk (List.replicate 255 'a')] true).success =
      true ∧
    (list_directory "/tmp" [String.mk (List.replicate 255 'a')] true).data ≠ "" ∧
    isValidJson
      (list_directory "/tmp" [String.mk (List.replicate 255 'a')] true).data =
      false := by
  refine ⟨rfl, by decide, by rfl⟩

/-- C5 amended: for a clean path and clean entry names of at most 253 bytes
whose formatted listing fits the 2048-byte data buffer, `list_directory`
returns `data` parsing to an object whose `files` member is the complete,
duplicate-free array of exactly the non-`.`/`..` entry names; names or
listings exceeding the fixed buffers are silently mangled instead
(counterexample). -/
theorem c5_amended (p : String) (entries : List String)
    (h1 : goodString p = true)
    (h2 : ∀ n ∈ entries.filter notDotEntry, goodString n = true ∧ n.length ≤ 253)
    (h3 : 23 + p.length + (list_directory_files_json entries).length ≤ 2047)
    (h4 : (entries.filter notDotEntry).Nodup) :
    cJSON_ParseModel (list_directory p entries true).data =
      some (Json.obj [("path", Json.str p),
        ("files", Json.arr ((entries.filter notDotEntry).map Json.str))]) ∧
    ((entries.filter notDotEntry).map Json.str).length =
      (entries.filter notDotEntry).length ∧
    ((entries.filter notDotEntry).map Json.str).Nodup := by
  refine ⟨(list_directory_data_parsed p entries h1 h2 h3).1, by simp, ?_⟩
  exact h4.map (fun a b hab => Json.str.inj hab)

/-- C5 witness. -/
theorem c5_witness :
    cJSON_ParseModel (list_directory "/tmp" ["a.txt", "b.txt", ".", ".."] true).data =
      some (Json.obj [("path", Json.str "/tmp"),
        ("files", Json.arr (((["a.txt", "b.txt", ".", ".."] : List String).filter
          notDotEntry).map Json.str))]) ∧
    (((["a.txt", "b.txt", ".", ".."] : List String).filter notDotEntry).map
      Json.str).length =
      ((["a.txt", "b.txt", ".", ".."] : List String).filter notDotEntry).length ∧
    (((["a.txt", "b.txt", ".", ".."] : List String).filter notDotEntry).map
      Json.str).Nodup :=
  c5_amended "/tmp" ["a.txt", "b.txt", ".", ".."] (by decide)
    (by decide) (by decide) (by decide)

/-- C6 counterexample: a successful creation at a path containing a double
quote yields `data` that does not parse at all, hence does not equal the
JSON object carrying the path. -/
theorem c6_counterexample :
    (create_file_with_content "/tmp/a\"b" "x" true).success = true ∧
    cJSON_ParseModel (create_file_with_content "/tmp/a\"b" "x" true).data =
      none ∧
    cJSON_ParseModel (create_file_with_content "/tmp/a\"b" "x" true).data ≠
      some (Json.obj [("path", Json.str "/tmp/a\"b")]) := by
  have h0 : cJSON_ParseModel (create_file_with_content "/tmp/a\"b" "x" true).data =
      none := by rfl
  refine ⟨rfl, h0, ?_⟩
  intro h
  rw [h0] at h
  exact Option.noConfusion h

/-- C6 amended: the byte-for-byte round trip holds — the handler writes the
content string verbatim through `fprintf("%s")` — and on success `data`
parses to the JSON object with the path under key `path`, provided the path
contains no double quote, backslash or control character and fits the
2048-byte buffer. -/
theorem c6_amended (p c0 : String) (h1 : goodString p = true)
    (h2 : p.length ≤ 2035) :
    create_file_written c0 = c0 ∧
    (create_file_with_content p c0 true).success = true ∧
    cJSON_ParseModel (create_file_with_content p c0 true).data =
      some (Json.obj [("path", Json.str p)]) :=
  ⟨create_file_written_eq c0, rfl, (create_file_data_parsed p c0 h1 h2).1⟩

/-- C6 witness. -/
theorem c6_witness :
    create_file_written "hello" = "hello" ∧
    (create_file_with_content "/tmp/x.txt" "hello" true).success = true ∧
    cJSON_ParseModel (create_file_with_content "/tmp/x.txt" "hello" true).data =
      some (Json.obj [("path", Json.str "/tmp/x.txt")]) :=
  c6_amended "/tmp/x.txt" "hello" (by decide) (by decide)

/-- C7 counterexample: the encoder uses `cJSON_Print`, whose output is
formatted with newlines and tabs — not the compact rendering; the concrete
response below differs from the compact form and contains a newline. -/
theorem c7_counterexample :
    create_json_response { success := true, message := "ok", data := "" } =
      "\x7b\n\t\"success\":\ttrue,\n\t\"message\":\t\"ok\"\n\x7d" ∧
    create_json_response { success := true, message := "ok", data := "" } ≠
      String.mk (printCompact (Json.obj [("success", Json.bool true),
        ("message", Json.str "ok")])) ∧
    '\n' ∈ (create_json_response
      { success := true, message := "ok", data := "" }).data := by
  refine ⟨by rfl, by decide, by decide⟩

/-- C7 amended: the encoder emits a single formatted (pretty-printed, not
compact) JSON object that parses back with `success` as a boolean first,
`message` as a string second, and — only when the `data` buffer is
non-empty and reparses — the parsed fragment embedded (not double-encoded)
as the `data` member last; the member order is fixed by construction. -/
theorem c7_amended (r : ExecutionResult)
    (hm : printableString r.message = true) :
    (r.data = "" → cJSON_ParseModel (create_json_response r) =
      some (Json.obj [("success", Json.bool r.success),
        ("message", Json.str r.message)])) ∧
    (∀ dv, cJSON_ParseModel r.data = some dv → JsonClean dv = true →
      cJSON_ParseModel (create_json_response r) =
        some (Json.obj [("success", Json.bool r.success),
          ("message", Json.str r.message), ("data", dv)])) :=
  create_json_response_parsed r hm

/-- C7 witness. -/
theorem c7_witness :
    cJSON_ParseModel (create_json_response
      { success := true, message := "ok", data := "" }) =
      some (Json.obj [("success", Json.bool true), ("message", Json.str "ok")]) ∧
    cJSON_ParseModel (create_json_response
      { success := true, message := "done", data := "\x7b\"path\": \"/tmp\"\x7d" }) =
      some (Json.obj [("success", Json.bool true), ("message", Json.str "done"),
        ("data", Json.obj [("path", Json.str "/tmp")])]) :=
  ⟨(c7_amended { success := true, message := "ok", data := "" } (by decide)).1 rfl,
   (c7_amended { success := true, message := "done", data := "\x7b\"path\": \"/tmp\"\x7d" }
      (by decide)).2 (Json.obj [("path", Json.str "/tmp")]) (by rfl) (by decide)⟩

/-- C8 counterexample: for a 1100-byte action name the 1024-byte message
buffer truncates the text to 1023 bytes, so the message cannot include the
offending action name. -/
theorem c8_counterexample :
    (unknown_action_result (String.mk (List.replicate 1100 'a'))).message.data.length =
      1023 ∧
    ¬ ((String.mk (List.replicate 1100 'a')).data <:+:
      (unknown_action_result (String.mk (List.replicate 1100 'a'))).message.data) := by
  have hdl : (String.mk (List.replicate 1100 'a')).data.length = 1100 := by
    show (List.replicate 1100 'a').length = 1100
    rw [List.length_replicate]
  have hmsg := unknown_action_message_data (String.mk (List.replicate 1100 'a'))
  have hlen :
      (unknown_action_result (String.mk (List.replicate 1100 'a'))).message.data.length =
        1023 := by
    rw [hmsg, List.length_take, List.length_append]
    rw [show ("Unknown action: ").data.length = 16 from rfl]
    rw [hdl]
    decide
  refine ⟨hlen, ?_⟩
  intro hinf
  have hle := hinf.length_le
  rw [hlen, hdl] at hle
  omega

/-- C8 amended: any parsed body whose string `action` value is none of the
three dispatched names yields `success = false` with message
`Unknown action: ` followed by the name — truncated to 1023 bytes, so the
name is included only when it is at most 1007 bytes; the concrete
`frobnicate` example holds exactly. -/
theorem c8_amended :
    (∀ (j : Json) (a : String),
      valuestringOf (getObjectItem j "action") = some a →
      a ≠ "create_file" → a ≠ "delete_file" → a ≠ "list_directory" →
      dispatchJson j = Dispatched.unknownAction a ∧
      (unknown_action_result a).success = false ∧
      (a.length ≤ 1007 →
        (unknown_action_result a).message = "Unknown action: " ++ a ∧
        a.data <:+: (unknown_action_result a).message.data)) ∧
    dispatchBody "\x7b\"action\":\"frobnicate\"\x7d" =
      Dispatched.unknownAction "frobnicate" ∧
    (unknown_action_result "frobnicate").message =
      "Unknown action: frobnicate" := by
  refine ⟨?_, by rfl, by rfl⟩
  intro j a ha h1 h2 h3
  refine ⟨dispatchJson_unknown j a ha h1 h2 h3, rfl, ?_⟩
  intro hlen
  have hm := unknown_action_message_eq a hlen
  refine ⟨hm, ?_⟩
  rw [hm, string_data_append]
  exact (List.suffix_append _ _).isInfix

/-- C8 witness. -/
theorem c8_witness :
    dispatchJson (Json.obj [("action", Json.str "frobnicate")]) =
      Dispatched.unknownAction "frobnicate" ∧
    (unknown_action_result "frobnicate").success = false ∧
    ("frobnicate".length ≤ 1007 →
      (unknown_action_result "frobnicate").message =
        "Unknown action: " ++ "frobnicate" ∧
      "frobnicate".data <:+:
        (unknown_action_result "frobnicate").message.data) :=
  c8_amended.1 (Json.obj [("action", Json.str "frobnicate")]) "frobnicate"
    (by rfl) (by decide) (by decide) (by decide)

/-- C9: a non-empty `data` buffer that cJSON cannot reparse is silently
omitted — the wire response equals the one an empty `data` would give,
and (for any printable message) it still parses as a well-formed object
holding exactly the `success` and `message` members; no error is
reported. -/
theorem c9_encoder_drops_invalid_data (r : ExecutionResult)
    (hne : r.data ≠ "") (hbad : cJSON_ParseModel r.data = none) :
    create_json_response r =
      create_json_response { success := r.success, message := r.message, data := "" } ∧
    (printableString r.message = true →
      cJSON_ParseModel (create_json_response r) =
        some (Json.obj [("success", Json.bool r.success),
          ("message", Json.str r.message)])) := by
  refine ⟨create_json_response_drops_bad_data r hbad, ?_⟩
  intro hm
  rw [create_json_response_drops_bad_data r hbad]
  exact (create_json_response_parsed
    { success := r.success, message := r.message, data := "" } hm).1 rfl

/-- C9 witness. -/
theorem c9_witness :
    create_json_response { success := true, message := "ok", data := "\x7boops" } =
      create_json_response { success := true, message := "ok", data := "" } ∧
    (printableString ("ok" : String) = true →
      cJSON_ParseModel (create_json_response
        { success := true, message := "ok", data := "\x7boops" }) =
        some (Json.obj [("success", Json.bool true), ("message", Json.str "ok")])) :=
  c9_encoder_drops_invalid_data { success := true, message := "ok", data := "\x7boops" }
    (by decide) (by rfl)

/-- C10 counterexample: a chunk containing a NUL byte contributes only its
NUL-free prefix — 2 bytes here — not `min(chunk size, remaining capacity)`
= 5 bytes, because `strncat` stops at the first NUL of the source. -/
theorem c10_counterexample :
    (String.mk ['a', 'b', nulChar, 'c', 'd']).length = 5 ∧
    (accumulateChunk "" (String.mk ['a', 'b', nulChar, 'c', 'd'])).length = 2 ∧
    (accumulateChunk "" (String.mk ['a', 'b', nulChar, 'c', 'd'])).length ≠
      min (String.mk ['a', 'b', nulChar, 'c', 'd']).length
        (8191 - ("" : String).length) := by
  refine ⟨rfl, by decide, by decide⟩

/-- C10 amended: for NUL-free chunks each accumulation step adds exactly
`min(chunk size, remaining capacity)` bytes and keeps the buffer within
8191 bytes (so with its terminator it never exceeds the 8192-byte
allocation); the bound holds for every chunk sequence, NUL or not. -/
theorem c10_amended :
    (∀ buf chunk : String, buf.length ≤ 8191 → nulFree chunk = true →
      (accumulateChunk buf chunk).length =
        buf.length + min chunk.length (8191 - buf.length) ∧
      (accumulateChunk buf chunk).length ≤ 8191) ∧
    (∀ chunks : List String, (assembleBody chunks).length ≤ 8191) := by
  refine ⟨?_, assembleBody_le⟩
  intro buf chunk hb hc
  exact ⟨(accumulateChunk_step buf chunk hb hc).2, accumulateChunk_le buf chunk hb⟩

/-- C10 witness. -/
theorem c10_witness :
    ((accumulateChunk "x" "yz").length =
      ("x" : String).length + min ("yz" : String).length (8191 - ("x" : String).length) ∧
      (accumulateChunk "x" "yz").length ≤ 8191) ∧
    (assembleBody ["ab"]).length ≤ 8191 :=
  ⟨c10_amended.1 "x" "yz" (by decide) (by decide), c10_amended.2 ["ab"]⟩

end Hopper
